import Mathlib

set_option autoImplicit false
set_option maxHeartbeats 1000000

/-!
Verification development for the gamal pipeline (source: src/unnamed/part_000).

Text is modelled as `List Char` (named `JStr`), so that every operation of the
JavaScript source (substring surgery, regular-expression scanning, trimming)
can be embedded as an executable structural function and evaluated by `decide`.

JavaScript numbers are modelled as exact naturals; the model is faithful for
the digit lengths exercised here (below the 2^53 precision limit of JS).
-/

abbrev JStr : Type := List Char

/-- Coerce a Lean string literal to the `List Char` text model. -/
def str (s : String) : JStr := s.data

/-- The whitespace class used by JavaScript `trim`, `trimEnd` and the regex
class `\s` (ASCII part plus NBSP and BOM; the remaining exotic Unicode space
code points never occur in the texts of this development). -/
def jsWhitespace (c : Char) : Bool :=
  c = ' ' || c = '\t' || c = '\n' || c = '\r' ||
  c = Char.ofNat 11 || c = Char.ofNat 12 || c = Char.ofNat 160 || c = Char.ofNat 65279

/-- JavaScript `String.prototype.trimStart`. -/
def jsTrimStart (s : JStr) : JStr := s.dropWhile jsWhitespace

/-- JavaScript `String.prototype.trimEnd`. -/
def jsTrimEnd (s : JStr) : JStr := (s.reverse.dropWhile jsWhitespace).reverse

/-- JavaScript `String.prototype.trim`. -/
def jsTrim (s : JStr) : JStr := jsTrimEnd (jsTrimStart s)

/-- JavaScript `split(sep)` for a single-character separator. -/
def splitOnCharAux (sep : Char) : JStr → JStr → List JStr
  | [], acc => [acc.reverse]
  | c :: rest, acc =>
    if c = sep then acc.reverse :: splitOnCharAux sep rest []
    else splitOnCharAux sep rest (c :: acc)

def splitOnChar (sep : Char) (s : JStr) : List JStr := splitOnCharAux sep s []

/-- Does `pat` occur in `s` starting at index `i`? -/
def occursAtB (pat s : JStr) (i : Nat) : Bool := pat.isPrefixOf (s.drop i)

/-- JavaScript `split(sep)` for a multi-character separator (fuelled; the fuel
`s.length + 1` always suffices because every step consumes at least one
character). -/
def splitOnStrFuel (sep : JStr) : Nat → JStr → JStr → List JStr
  | 0, s, acc => [acc.reverse ++ s]
  | _ + 1, [], acc => [acc.reverse]
  | fuel + 1, c :: rest, acc =>
    if sep ≠ [] ∧ sep.isPrefixOf (c :: rest) then
      acc.reverse :: splitOnStrFuel sep fuel ((c :: rest).drop sep.length) []
    else
      splitOnStrFuel sep fuel rest (c :: acc)

def splitOnStr (sep s : JStr) : List JStr := splitOnStrFuel sep (s.length + 1) s []

/-- JavaScript `indexOf` (as an `Option` instead of `-1`). -/
def jsIndexOfAux (pat s : JStr) : Nat → Nat → Option Nat
  | i, 0 => if occursAtB pat s i then some i else none
  | i, fuel + 1 => if occursAtB pat s i then some i else jsIndexOfAux pat s (i + 1) fuel

def jsIndexOf (pat s : JStr) : Option Nat := jsIndexOfAux pat s 0 s.length

/-- JavaScript `lastIndexOf` (as an `Option` instead of `-1`): scans indices
`i, i-1, ..., 0` for the last occurrence. -/
def jsLastIndexOfAux (pat s : JStr) : Nat → Option Nat
  | 0 => if occursAtB pat s 0 then some 0 else none
  | i + 1 => if occursAtB pat s (i + 1) then some (i + 1) else jsLastIndexOfAux pat s i

def jsLastIndexOf (pat s : JStr) : Option Nat := jsLastIndexOfAux pat s s.length

/-- JavaScript `includes`. -/
def includesStr (pat s : JStr) : Bool := (jsIndexOf pat s).isSome

/-- JavaScript `replace(pat, repl)` with a string pattern: replaces only the
first occurrence. -/
def replaceFirst (pat repl s : JStr) : JStr :=
  match jsIndexOf pat s with
  | none => s
  | some p => s.take p ++ repl ++ s.drop (p + pat.length)

/-- JavaScript `<` on strings (lexicographic by code unit). -/
def jsStrLt : JStr → JStr → Bool
  | [], [] => false
  | [], _ :: _ => true
  | _ :: _, [] => false
  | a :: as, b :: bs =>
    if a.val < b.val then true else if b.val < a.val then false else jsStrLt as bs

/-- JavaScript `<=` on strings. -/
def jsStrLe (a b : JStr) : Bool := !(jsStrLt b a)

/-- `parseInt(ds, 10)` on a digit string (exact; JS would round beyond 2^53). -/
def natOfDigits (ds : JStr) : Nat := ds.foldl (fun n c => n * 10 + (c.toNat - 48)) 0

/-- ASCII lowercasing, as performed by the regex `i` flag on the letters of
the literal `citation`. -/
def lowerChar (c : Char) : Char :=
  if 'A' ≤ c ∧ c ≤ 'Z' then Char.ofNat (c.toNat + 32) else c

/-! ## Citation stream rewriter (`push` / `flush`, part_000 lines 966-1018) -/

/-- The state of the incremental citation display.  `out` is the
concatenation of all `print` invocations so far; the source carries the
`print` and `cite` callbacks inside the object, which are threaded here as
the `out` accumulator and the `cite` parameter of `push`. -/
structure Display where
  buffer : JStr
  refs : List Nat
  out : JStr
deriving DecidableEq, Repr

def initDisplay : Display := ⟨[], [], []⟩

def NORMAL : JStr := str "\x1b[0m"
def GRAY : JStr := str "\x1b[90m"

/-- The `cite` formatter installed by `interact` (part_000 line 1028). -/
def citeANSI (citation : Nat) : JStr := GRAY ++ str "[" ++ (Nat.repr citation).data ++ str "]" ++ NORMAL

/-- Character class `[\[\()]` of the citation pattern. -/
def openerChar (c : Char) : Bool := c = '[' || c = '(' || c = ')'

/-- Character class `[\]\)]` of the citation pattern. -/
def closerChar (c : Char) : Bool := c = ']' || c = ')'

/-- Character class `[:\s]` of the citation pattern. -/
def sepChar (c : Char) : Bool := c = ':' || jsWhitespace c

/-- Attempt to match the regex `[\[\()]citation[:\s](\d+)[\]\)]` (flags `gi`)
at the head of `s`; returns the match length and the digit capture.  The
greedy `\d+` cannot backtrack productively because a digit is never a closing
bracket, so the match succeeds exactly when the maximal digit run is nonempty
and followed by a closer. -/
def tryMatch (s : JStr) : Option (Nat × JStr) :=
  match s with
  | [] => none
  | o :: rest =>
    if openerChar o then
      if (rest.take 8).map lowerChar = str "citation" then
        match rest.drop 8 with
        | [] => none
        | sep :: rest2 =>
          if sepChar sep then
            let ds := rest2.takeWhile Char.isDigit
            match rest2.drop ds.length with
            | [] => none
            | cl :: _ => if ds ≠ [] ∧ closerChar cl then some (11 + ds.length, ds) else none
          else none
      else none
    else none

/-- Leftmost match whose start index is `≥ abs`, on the suffix `s` whose
first character sits at absolute index `abs`. -/
def findMatchAux : JStr → Nat → Option (Nat × Nat × JStr)
  | [], _ => none
  | c :: rest, abs =>
    match tryMatch (c :: rest) with
    | some (len, ds) => some (abs, len, ds)
    | none => findMatchAux rest (abs + 1)

/-- `PATTERN.exec(buffer)` with `PATTERN.lastIndex = i`. -/
def findMatch (buffer : JStr) (i : Nat) : Option (Nat × Nat × JStr) :=
  findMatchAux (buffer.drop i) i

/-- The guard `number >= '0' && number <= '9'` of `push` — a *string*
comparison in the source, so e.g. `"90"` fails it while `"10"` passes. -/
def numOk (ds : JStr) : Bool := jsStrLe (str "0") ds && jsStrLe ds (str "9")

/-- The `while ((match = PATTERN.exec(buffer)) !== null)` loop of `push`.
After a replacement the stale `lastIndex` (`idx + len`, measured in the old
buffer) is kept, exactly as in the source.  The fuel is an embedding artifact
for the `while` loop; `buffer.length + 1` always suffices for the citation
formatters used in this development (every iteration shrinks
`buffer.length - lastIndex` by at least 11). -/
def pushLoop (cite : Nat → JStr) : Nat → JStr → List Nat → Nat → JStr × List Nat
  | 0, buffer, refs, _ => (buffer, refs)
  | fuel + 1, buffer, refs, lastIndex =>
    match findMatch buffer lastIndex with
    | none => (buffer, refs)
    | some (idx, len, ds) =>
      if numOk ds then
        let num := natOfDigits ds
        let refs' := if refs.contains num then refs else refs ++ [num]
        let citation := 1 + refs'.indexOf num
        pushLoop cite fuel (buffer.take idx ++ cite citation ++ buffer.drop (idx + 12)) refs' (idx + len)
      else
        pushLoop cite fuel buffer refs (idx + len)

def MAX_LOOKAHEAD : Nat := 3 * (str "[citation:x]").length

/-- `push(display, text)` (part_000 lines 979-1002). -/
def push (cite : Nat → JStr) (d : Display) (text : JStr) : Display :=
  let buffer0 := d.buffer ++ text
  let br := pushLoop cite (buffer0.length + 1) buffer0 d.refs 0
  if br.1.length > MAX_LOOKAHEAD then
    { buffer := br.1.drop (br.1.length - MAX_LOOKAHEAD),
      refs := br.2,
      out := d.out ++ br.1.take (br.1.length - MAX_LOOKAHEAD) }
  else
    { buffer := br.1, refs := br.2, out := d.out }

/-- `flush(display)` (part_000 lines 1014-1018): prints the trimmed-at-the-end
remaining buffer and resets both the buffer and the refs. -/
def flush (d : Display) : Display :=
  { buffer := [], refs := [], out := d.out ++ jsTrimEnd d.buffer }

/-- Feeding a sequence of chunks through `push`. -/
def pushMany (cite : Nat → JStr) (d : Display) (chunks : List JStr) : Display :=
  chunks.foldl (push cite) d


/-- The spec's concrete example stream for the citation rewriter. -/
def exampleS : JStr := str "See [citation:2] and [citation:5] and [citation:2]."

/-- Canonical state after the length-`i` prefix of `exampleS` is pushed as a
single chunk. -/
def canon (i : Nat) : Display := push citeANSI initDisplay (exampleS.take i)

/-- The segment of `exampleS` from index `i` (inclusive) to `j` (exclusive). -/
def sliceS (i j : Nat) : JStr := (exampleS.drop i).take (j - i)

/-- The fully rewritten display text of `exampleS`. -/
def exampleSRewritten : JStr :=
  str "See \x1b[90m[1]\x1b[0m and \x1b[90m[2]\x1b[0m and \x1b[90m[1]\x1b[0m."


/-! ## Structured-record codec (`deconstruct` / `construct`, part_000 lines 295-346) -/

/-- The record built by `deconstruct` and consumed by `construct`: one
optional text value per predefined key (`none` models an absent JS object
property). -/
structure Parts where
  inquiry : Option JStr
  tool : Option JStr
  language : Option JStr
  thought : Option JStr
  keyphrases : Option JStr
  observation : Option JStr
  topic : Option JStr
deriving DecidableEq, Repr

def emptyParts : Parts := ⟨none, none, none, none, none, none, none⟩

def PREDEFINED_KEYS : List JStr :=
  [str "INQUIRY", str "TOOL", str "LANGUAGE", str "THOUGHT", str "KEYPHRASES",
   str "OBSERVATION", str "TOPIC"]

/-- `parts[key] = value` for the lowercased key names used by the source. -/
def setPart (p : Parts) (key v : JStr) : Parts :=
  if key = str "inquiry" then { p with inquiry := some v }
  else if key = str "tool" then { p with tool := some v }
  else if key = str "language" then { p with language := some v }
  else if key = str "thought" then { p with thought := some v }
  else if key = str "keyphrases" then { p with keyphrases := some v }
  else if key = str "observation" then { p with observation := some v }
  else if key = str "topic" then { p with topic := some v }
  else p

/-- `kv[key]` for the lowercased key names used by the source. -/
def getPart (p : Parts) (key : JStr) : Option JStr :=
  if key = str "inquiry" then p.inquiry
  else if key = str "tool" then p.tool
  else if key = str "language" then p.language
  else if key = str "thought" then p.thought
  else if key = str "keyphrases" then p.keyphrases
  else if key = str "observation" then p.observation
  else if key = str "topic" then p.topic
  else none

/-- JavaScript truthiness of an optional string (`undefined` and `''` are
falsy). -/
def truthy (v : Option JStr) : Bool :=
  match v with
  | none => false
  | some s => !s.isEmpty

/-- `Array.prototype.join(sep)`. -/
def joinSep (sep : JStr) : List JStr → JStr
  | [] => []
  | [x] => x
  | x :: y :: rest => x ++ sep ++ joinSep sep (y :: rest)

/-- JavaScript string coercion of a possibly-undefined value, as performed by
`+` and template literals (`undefined` turns into the text `undefined`). -/
def optText (v : Option JStr) : JStr := v.getD (str "undefined")

/-- One iteration of the `for` loop of `deconstruct`: scan the remaining
`str` for the right-most `MARKER:`, extract the first line after it as the
value, and cut `str` before the marker. -/
def deconsStep (acc : JStr × Parts) (marker : JStr) : JStr × Parts :=
  match jsLastIndexOf (marker ++ str ":") acc.1 with
  | none => acc
  | some pos =>
    let substr := jsTrim (acc.1.drop (pos + marker.length + 1))
    let value := (splitOnChar '\n' substr).headI
    (acc.1.take pos, setPart acc.2 (marker.map lowerChar) value)

/-- `deconstruct(text, markers)` (part_000 lines 304-328): anchors on the
*last* occurrence of the final marker and scans the remaining text from the
right; without the anchor the empty record is returned. -/
def deconstruct (text : JStr) (markers : List JStr := PREDEFINED_KEYS) : Parts :=
  let keys := markers.reverse
  let anchor := (markers.getLast?).getD []
  match jsLastIndexOf (anchor ++ str ":") text with
  | none => emptyParts
  | some start =>
    let p0 := setPart emptyParts (anchor.map lowerChar)
      (jsTrim (replaceFirst (anchor ++ str ":") [] (text.drop start)))
    (keys.foldl deconsStep (text.take start, p0)).2

/-- `construct(kv)` (part_000 lines 336-346). -/
def construct (kv : Parts) : JStr :=
  joinSep (str "\n")
    ((PREDEFINED_KEYS.filter (fun key => truthy (getPart kv (key.map lowerChar)))).map
      (fun key => key ++ str ": " ++ (getPart kv (key.map lowerChar)).getD []))

/-! ## Completion client retry policy (`chat`, part_000 lines 183-293) -/

/-- JavaScript exceptions classified by the `e.name` checks of the source:
`TimeoutError` (AbortSignal deadline), `EvalError` (thrown by the source on a
non-success HTTP status or an empty search result), `TypeError` (e.g. calling
a method of `null`), and everything else. -/
inductive JsErr
  | timeoutError
  | evalError
  | typeError
  | otherError
deriving DecidableEq, Repr

/-- The retry test `e.name === 'TimeoutError' || e.name === 'EvalError'`. -/
def retryableName : JsErr → Bool
  | .timeoutError => true
  | .evalError => true
  | _ => false

instance exceptDecEq {e a : Type} [DecidableEq e] [DecidableEq a] : DecidableEq (Except e a) := fun x y =>
  match x, y with
  | .ok u, .ok v =>
    if h : u = v then isTrue (by rw [h]) else isFalse (by intro he; cases he; exact h rfl)
  | .error u, .error v =>
    if h : u = v then isTrue (by rw [h]) else isFalse (by intro he; cases he; exact h rfl)
  | .ok _, .error _ => isFalse (by intro he; cases he)
  | .error _, .ok _ => isFalse (by intro he; cases he)

def MAX_RETRY_ATTEMPT : Nat := 3

/-- The retry skeleton of `chat` (part_000 lines 281-292).  The whole
`try` body — fetch, status check, JSON/SSE decoding — is collapsed into a
backend oracle giving the outcome of the n-th attempt (`.ok answer`, or a
failure classified by its exception name).  The result carries the final
outcome, the number of attempts made, and the list of `sleep` delays in
milliseconds. -/
def chatGo (bk : Nat -> Except JsErr JStr) : Nat -> Nat -> Except JsErr JStr × Nat × List Nat
  | attempt + 2, callIdx =>
    match bk callIdx with
    | .ok s => (.ok s, 1, [])
    | .error e =>
      if retryableName e then
        let d := (MAX_RETRY_ATTEMPT - (attempt + 2) + 1) * 1500
        let r := chatGo bk (attempt + 1) (callIdx + 1)
        (r.1, r.2.1 + 1, d :: r.2.2)
      else (.error e, 1, [])
  | _, callIdx =>
    match bk callIdx with
    | .ok s => (.ok s, 1, [])
    | .error e => (.error e, 1, [])

/-- `chat(messages, handler)` at the retry level: starts with
`attempt = MAX_RETRY_ATTEMPT`. -/
def chatRetry (bk : Nat -> Except JsErr JStr) : Except JsErr JStr × Nat × List Nat :=
  chatGo bk MAX_RETRY_ATTEMPT 0

/-! ## Streaming fragment accumulation (`chat` SSE loop, part_000 lines 223-280) -/

/-- Result of the inner `parse(line)` helper of `chat`: `null` (the payload
did not parse as JSON), `undefined` (parsed, but no `delta.content`), or a
text fragment.  The JSON decoding itself is data supplied by the remote
backend, so it enters the model as an oracle from the trimmed line to this
result. -/
inductive ParseR
  | null
  | undef
  | frag (s : JStr)
deriving DecidableEq, Repr

/-- One iteration of the `for (let i = 0; ...)` body of the SSE loop of
`chat`: processes one line against the state (accumulated answer, pending
line buffer, list of handler notifications); `none` encodes the `break` on
`data: [DONE]`. -/
def plStep (parseFn : JStr -> ParseR) (l : JStr) :
    JStr × JStr × List JStr -> Option (JStr × JStr × List JStr)
  | (answer, buffer, calls) =>
    let line := buffer ++ l
    if line.head? = some ':' then some (answer, [], calls)
    else if line = str "data: [DONE]" then none
    else if line.length > 0 then
      match parseFn (jsTrim line) with
      | .null => some (answer, line, calls)
      | .undef => some (answer, buffer, calls)
      | .frag f =>
        if f.length > 0 then
          if answer.length < 1 then
            let leading := jsTrim f
            some (leading, [], calls ++ (if leading.length > 0 then [leading] else []))
          else some (answer ++ f, [], calls ++ [f])
        else some (answer, buffer, calls)
    else some (answer, buffer, calls)

/-- The full line loop of one network read: `data: [DONE]` breaks out of the
line loop of the current read only. -/
def processLines (parseFn : JStr -> ParseR) :
    List JStr -> JStr × JStr × List JStr -> JStr × JStr × List JStr
  | [], st => st
  | l :: rest, st =>
    match plStep parseFn l st with
    | none => st
    | some st2 => processLines parseFn rest st2

/-- The full SSE read loop of `chat`: each read is split on newlines and fed
through `processLines`; returns the final answer and the sequence of
`handler` notifications. -/
def chatSSE (parseFn : JStr -> ParseR) (reads : List JStr) : JStr × List JStr :=
  let st := reads.foldl (fun st read => processLines parseFn (splitOnChar '\n' read) st)
    (([], [], []) : JStr × JStr × List JStr)
  (st.1, st.2.2)

/-- What the claim under test says the first-fragment treatment is: only
*leading* whitespace removed. -/
def leadTrimOnly (s : JStr) : JStr := jsTrimStart s

/-- One step of the reference accumulation, written from the corrected claim
wording: while the answer is still empty the fragment is trimmed on *both*
sides and (if non-blank) both kept and forwarded; afterwards fragments are
appended and forwarded verbatim. -/
def specStepAcc (st : JStr × List JStr) (f : JStr) : JStr × List JStr :=
  if st.1.length < 1 then
    let leading := jsTrim f
    (leading, st.2 ++ (if leading.length > 0 then [leading] else []))
  else (st.1 ++ f, st.2 ++ [f])

/-- Reference accumulation over a whole fragment sequence. -/
def specAccum (frags : List JStr) : JStr × List JStr :=
  frags.foldl specStepAcc (([], []) : JStr × List JStr)


/-! ## Search stage (`searxng` / `parse` / `search`, part_000 lines 495-606) -/

def TOP_K : Nat := 3

/-- A raw entry extracted by `parse` from the markdown search response:
`title` and `url` may be `undefined`. -/
structure Hit where
  title : Option JStr
  url : Option JStr
  description : JStr
deriving DecidableEq, Repr

/-- A normalized reference (part_000 lines 565-569). -/
structure Reference where
  position : Nat
  url : JStr
  title : Option JStr
  snippet : JStr
deriving DecidableEq, Repr

/-- Scan for the lazy close of `/X(.*?)Y/`: the content up to the first
`closeC`, failing if a newline (which `.` cannot match) or the end arrives
first. -/
def scanClose (closeC : Char) : JStr -> Option JStr
  | [] => none
  | c :: rest =>
    if c = closeC then some []
    else if c = '\n' then none
    else (scanClose closeC rest).map (c :: ·)

/-- First match group of the regex `openC (.*?) closeC`, e.g.
`/\[(.*?)\]/` — the engine retries at every later start position when a
newline interrupts a candidate match. -/
def matchLazyBetween (openC closeC : Char) : JStr -> Option JStr
  | [] => none
  | c :: rest =>
    if c = openC then
      match scanClose closeC rest with
      | some content => some content
      | none => matchLazyBetween openC closeC rest
    else matchLazyBetween openC closeC rest

/-- Length of a match of `/#+\s+Answers\s+:/i` at the head of `s`, if any. -/
def tryAnswersMatch (s : JStr) : Option Nat :=
  let hs := s.takeWhile (· = '#')
  if hs = [] then none
  else
    let s1 := s.drop hs.length
    let ws1 := s1.takeWhile jsWhitespace
    if ws1 = [] then none
    else
      let s2 := s1.drop ws1.length
      if (s2.take 7).map lowerChar = str "answers" then
        let s3 := s2.drop 7
        let ws2 := s3.takeWhile jsWhitespace
        if ws2 = [] then none
        else
          match s3.drop ws2.length with
          | ':' :: _ => some (hs.length + ws1.length + 7 + ws2.length + 1)
          | _ => none
      else none

/-- `content.split(/#+\s+Answers\s+:/i)` (fuelled like `splitOnStr`). -/
def splitAnswersFuel : Nat -> JStr -> JStr -> List JStr
  | 0, s, acc => [acc.reverse ++ s]
  | _ + 1, [], acc => [acc.reverse]
  | fuel + 1, c :: rest, acc =>
    match tryAnswersMatch (c :: rest) with
    | some len => acc.reverse :: splitAnswersFuel fuel ((c :: rest).drop len) []
    | none => splitAnswersFuel fuel rest (c :: acc)

def splitAnswers (s : JStr) : List JStr := splitAnswersFuel (s.length + 1) s []

/-- `s.slice(0, e)` with a JavaScript (possibly negative) end index. -/
def jsSliceEnd (s : JStr) (e : Int) : JStr :=
  let en := if e < 0 then (s.length : Int) + e else e
  s.take (max en 0).toNat

/-- The `answer(content)` helper of `searxng` (part_000 lines 498-514).
When the candidate description has no `(...)` group the source calls
`.pop()` on `null` and a `TypeError` escapes. -/
def answerFn (content : JStr) : Except JsErr (Option Hit) :=
  match ((splitAnswers content).filter (fun l => !(str "Title").isPrefixOf l)).head? with
  | none => .ok none
  | some description =>
    if description = [] then .ok none
    else
      match matchLazyBetween '(' ')' description with
      | none => .error .typeError
      | some g =>
        let url := jsTrim g
        if url ≠ [] then
          let idx : Int := match jsIndexOf url description with
            | some p => (p : Int)
            | none => -1
          .ok (some ⟨some (str "Answers"), some url, jsTrim (jsSliceEnd description (idx - 1))⟩)
        else .ok (some ⟨some (str "Answers"), some url, description⟩)

/-- The per-line entry extraction of `parse` (part_000 lines 520-534). -/
def parseHitLine (line : JStr) : Hit :=
  let joined := joinSep (str ",") ((splitOnStr (str "###") line).drop 1)
  let fragLines := splitOnChar '\n' joined
  let header := fragLines.headI
  let description := jsTrim (joinSep [] (fragLines.drop 1))
  let title := (matchLazyBetween '[' ']' header).map jsTrim
  let buffer := jsTrim (replaceFirst (title.getD (str "undefined")) [] header)
  let url := (matchLazyBetween '(' ')' buffer).map jsTrim
  ⟨title, url, description⟩

/-- `parse(content)` of `searxng` (part_000 lines 516-540): split the
markdown on `[https://`, drop
lines mentioning `SearXNG`, extract entries, prepend the `Answers` pseudo
entry, keep only entries that exist and have a nonempty URL (the snippet is
*not* inspected), and cut to the first `TOP_K`. -/
def parseSearx (content : JStr) : Except JsErr (List Hit) :=
  let lines := ((splitOnStr (str "[https://") content).filter
    (fun l => !includesStr (str "SearXNG") l))
  let hits := lines.map parseHitLine
  match answerFn content with
  | .error e => .error e
  | .ok a =>
    let hits2 := match a with
      | some h => h :: hits
      | none => hits
    .ok ((hits2.filter (fun h => match h.url with
      | some u => u ≠ []
      | none => false)).take TOP_K)

/-- Outcome of the n-th `fetch` of `searxng`, as an oracle: a successful
response with its body text, a non-success HTTP status, a timeout, or any
other network failure. -/
inductive SearxFetch
  | ok (content : JStr)
  | httpError
  | timeout
  | netOther
deriving DecidableEq, Repr

/-- One `try` body of `searxng` (part_000 lines 551-573): non-success
statuses and empty filtered results raise `EvalError`; the references are the
surviving entries numbered from 1, with the snippet built as
`title + description.substring(0, 1000)` (JS coerces an undefined title to
the text `undefined`). -/
def searxngAttempt (f : SearxFetch) : Except JsErr (List Reference) :=
  match f with
  | .timeout => .error .timeoutError
  | .netOther => .error .otherError
  | .httpError => .error .evalError
  | .ok content =>
    match parseSearx content with
    | .error e => .error e
    | .ok blocks =>
      if blocks.length > 0 then
        .ok (((blocks.take TOP_K).enum).map (fun p =>
          ⟨p.1 + 1, (p.2.url).getD [], p.2.title,
            optText p.2.title ++ p.2.description.take 1000⟩))
      else .error .evalError

/-- The retry skeleton of `searxng` (part_000 lines 574-586), identical in
shape to the one of `chat`. -/
def searxngGo (fetchO : Nat -> SearxFetch) : Nat -> Nat -> Except JsErr (List Reference) × Nat × List Nat
  | attempt + 2, callIdx =>
    match searxngAttempt (fetchO callIdx) with
    | .ok refs => (.ok refs, 1, [])
    | .error e =>
      if retryableName e then
        let d := (MAX_RETRY_ATTEMPT - (attempt + 2) + 1) * 1500
        let r := searxngGo fetchO (attempt + 1) (callIdx + 1)
        (r.1, r.2.1 + 1, d :: r.2.2)
      else (.error e, 1, [])
  | _, callIdx =>
    match searxngAttempt (fetchO callIdx) with
    | .ok refs => (.ok refs, 1, [])
    | .error e => (.error e, 1, [])

def searxngRetry (fetchO : Nat -> SearxFetch) : Except JsErr (List Reference) × Nat × List Nat :=
  searxngGo fetchO MAX_RETRY_ATTEMPT 0

/-! ## Pipeline stages (`reason` / `search` / `respond`, part_000 lines 378-666) -/

/-- One prior conversation turn as consumed by `reason` (absent fields are
modelled as empty strings, which behave identically under the truthiness
checks of `construct`). -/
structure HistoryMsg where
  inquiry : JStr
  topic : JStr
  thought : JStr
  keyphrases : JStr
  answer : JStr
deriving DecidableEq, Repr

/-- The pipeline context.  `none` models a JS object that does not bind the
field (a field bound to `undefined` merges identically).  The impure
`delegates` (enter/leave/stream) do not influence the data flow and are not
modelled. -/
structure Context where
  inquiry : JStr
  history : List HistoryMsg
  language : Option JStr
  topic : Option JStr
  thought : Option JStr
  keyphrases : Option JStr
  observation : Option JStr
  answer : Option JStr
  references : Option (List Reference)
deriving DecidableEq, Repr

structure JMessage where
  role : JStr
  content : JStr
deriving DecidableEq, Repr

def REASON_PROMPT : JStr := str
  "You are Gamal, a world-class answering assistant.\nYou are interacting with a human who gives you an inquiry.\nYour task is as follows.\n\nUse Google to search for the answer. Think step by step. Fix any misspelings.\nDo not refuse to search for future events beyond your knowledge cutoff, because Google will still find it for you.\nIf necessary, refer to the relevant part of the previous conversation history.\nUse the same language as the inquiry.\n\nAlways output your thought in the following format:\n\nTOOL: the search engine to use (must be Google).\nLANGUAGE: the language of the inquiry e.g. French, Spanish, Mandarin, etc.\nTHOUGHT: describe your thoughts about the inquiry.\nKEYPHRASES: the important query to give to Google.\nOBSERVATION: the concise result of the search tool.\nTOPIC: the specific topic covering the inquiry."

def REASON_EXAMPLE : JStr := str
  "\n\n# Example\n\nGiven an inquiry \"Pour quoi le lac de Pitch à Trinidad est-il célèbre?\", you will output:\n\nTOOL: Google.\nLANGUAGE: French.\nTHOUGHT: Cela concerne la géographie, je vais utiliser la recherche Google.\nKEYPHRASES: Pitch Lake in Trinidad famerenommée du lac de Pitch à Trinidad.\nOBSERVATION: Le lac de Pitch à Trinidad est le plus grand dépôt naturel d\x27asphalte.\nTOPIC: géographie."

/-- `breakdown`'s assembled text (part_000 lines 409-415). -/
def breakdownText (hint completion : JStr) : JStr :=
  let remark := jsTrim
    ((fun s => if (str "assistant").isPrefixOf s then s.drop 9 else s)
      (replaceFirst (str "<|end_header_id|>") []
        (replaceFirst (str "<|start_header_id|>") [] completion)))
  if hint.isPrefixOf remark then remark else hint ++ remark

/-- `breakdown(hint, completion)` (part_000 lines 409-422): decode, and if
`topic` did not come out truthy, append a synthetic topic line and decode
again — locally, with no backend involved. -/
def breakdown (hint completion : JStr) : Parts :=
  let text := breakdownText hint completion
  let result := deconstruct text
  if truthy result.topic then result
  else deconstruct (text ++ str "\n" ++ str "TOPIC: general knowledge.")

/-- `['TOOL: Google.', 'LANGUAGE: '].join('\n')` — the assistant hint of the
first reasoning request. -/
def hintReason : JStr := joinSep (str "\n") [str "TOOL: Google.", str "LANGUAGE: "]

/-- The message list of the first `chat` call of `reason` (part_000 lines
429-448). -/
def reasonMessages (ctx : Context) : List JMessage :=
  let relevant := ctx.history.drop (ctx.history.length - 3)
  let prompt := if relevant.length = 0 then REASON_PROMPT ++ REASON_EXAMPLE else REASON_PROMPT
  [⟨str "system", prompt⟩] ++
  (relevant.flatMap (fun msg =>
    [⟨str "user", msg.inquiry⟩,
     ⟨str "assistant", construct
       ⟨none, some (str "Google."), none, some msg.thought, some msg.keyphrases,
        some msg.answer, some msg.topic⟩⟩])) ++
  [⟨str "user", ctx.inquiry⟩, ⟨str "assistant", hintReason⟩]

/-- Merging of a freshly computed field with the trailing `...context`
spread: a field already bound on the context wins. -/
def spreadLast (ctxField newField : Option JStr) : Option JStr :=
  match ctxField with
  | some v => some v
  | none => newField

/-- `reason(context)` (part_000 lines 424-462) against a completion oracle
(mapping the request messages to the completion text).  Returns the updated
context together with the number of `chat` requests issued. -/
def reason (oracle : List JMessage -> JStr) (ctx : Context) : Context × Nat :=
  let messages := reasonMessages ctx
  let completion := oracle messages
  let result := breakdown hintReason completion
  let rc :=
    if !truthy result.keyphrases then
      let hint2 := joinSep (str "\n")
        [str "TOOL: Google.", str "THOUGHT: " ++ optText result.thought, str "KEYPHRASES: "]
      let completion2 := oracle (messages.dropLast ++ [⟨str "assistant", hint2⟩])
      (breakdown hint2 completion2, 2)
    else (result, 1)
  ({ ctx with
      language := spreadLast ctx.language rc.1.language,
      topic := spreadLast ctx.topic rc.1.topic,
      thought := spreadLast ctx.thought rc.1.thought,
      keyphrases := spreadLast ctx.keyphrases rc.1.keyphrases,
      observation := spreadLast ctx.observation rc.1.observation }, rc.2)

/-- `search(context)` (part_000 lines 596-606): requires `topic` and
`keyphrases` to be bound (the source would raise a `TypeError` otherwise),
queries SearXNG through the fetch oracle, and returns the context spread
*first* with the fresh `references` after it, so `references` is always
overwritten.  Also returns the attempt count and delays of the retry loop. -/
def search (fetchO : Nat -> SearxFetch) (ctx : Context) : Except JsErr (Context × Nat × List Nat) :=
  match ctx.topic, ctx.keyphrases with
  | some topic, some keyphrases =>
    let _query := (topic.filter (fun c => c ≠ '.')) ++ str ": " ++
      ((fun s =>
        let s1 := if s.head? = some '"' then s.tail else s
        if s1.getLast? = some '"' then s1.dropLast else s1)
       (if keyphrases.getLast? = some '.' then keyphrases.dropLast else keyphrases))
    match searxngRetry fetchO with
    | (.ok refs, n, ds) => .ok ({ ctx with references := some refs }, n, ds)
    | (.error e, _, _) => .error e
  | _, _ => .error .typeError

def RESPOND_PROMPT : JStr := str
  "You are a world-renowned research assistant.\nYou are given a user question, and please write clean, concise and accurate answer to the question.\nYou will be given a set of related references to the question, each starting with a reference number like [citation:x], where x is a number.\nPlease use only 3 most relevant references, not all of them.\nCite each reference at the end of each sentence.\n\nYou are expected to provide an answer that is accurate, correct, and reflect expert knowledge.\nYour answer must maintain an unbiased and professional tone.\nYour answer should not exceed 3 sentences in length, unless the instruction is to do so.\n\nDo not give any information that is not related to the question.\nNo need to mention \"according to the references...\" and other internal references.\n\nAfter every sentence, always cite the reference with the citation numbers, in the format [citation:x].\nIf a sentence comes from multiple references, please list all applicable citations, like [citation:3][citation:5].\n\nHere are the set of references:\n\n{REFERENCES}\n\nRemember, don\x27t blindly repeat the references verbatim.\nOnly supply the answer and do not add any additional commentaries, notes, remarks, list of citations, literature references, extra translations, postanalysis.\n\nYour answer must be in the same language as the inquiry, i.e. {LANGUAGE}.\n\nAnd here is the user question:"

/-- The reference line `[citation:${position}] ${title} - ${snippet}`. -/
def refLine (r : Reference) : JStr :=
  str "[citation:" ++ (Nat.repr r.position).data ++ str "] " ++ optText r.title ++
    str " - " ++ r.snippet

/-- `respond(context)` (part_000 lines 643-666) against a completion oracle.
With no usable references the completion is still requested (with an empty
message list); the trailing `...context` spread means a pre-bound `answer`
survives unchanged. -/
def respond (oracle : List JMessage -> JStr) (ctx : Context) : Context :=
  let messages :=
    match ctx.references with
    | some refs =>
      if refs.length > 0 then
        [⟨str "system",
          replaceFirst (str "{REFERENCES}") (joinSep (str "\n") (refs.map refLine))
            (replaceFirst (str "{LANGUAGE}") (optText ctx.language) RESPOND_PROMPT)⟩,
         ⟨str "user", ctx.inquiry⟩]
      else []
    | none => []
  let answer := oracle messages
  { ctx with answer := spreadLast ctx.answer (some answer) }


/-! ## Proof-side assembly helpers for the codec round-trip -/

/-- The key/value pairs of the nonempty fields of a record, in marker order —
the list that `construct` renders. -/
def pairsOf (R : Parts) (keysL : List JStr) : List (JStr × JStr) :=
  (keysL.filter (fun K => truthy (getPart R (K.map lowerChar)))).map
    (fun K => (K, (getPart R (K.map lowerChar)).getD []))

/-- `KEY: value` lines joined by newlines. -/
def textOf (ps : List (JStr × JStr)) : JStr :=
  joinSep (str "\n") (ps.map (fun p => p.1 ++ str ": " ++ p.2))

/-- Newline-terminated blocks, assembled right to left (head of the list is
the *last* line of the text). -/
def strOfR : List (JStr × JStr) -> JStr
  | [] => []
  | p :: rqs => strOfR rqs ++ (p.1 ++ str ": " ++ p.2) ++ str "\n"

/-- Newline-terminated blocks, assembled left to right. -/
def blocksOf (ps : List (JStr × JStr)) : JStr :=
  (ps.map (fun p => p.1 ++ str ": " ++ p.2 ++ str "\n")).flatten

/-- Replaying the `setPart` writes of a pair list. -/
def applyPairs (ps : List (JStr × JStr)) (acc : Parts) : Parts :=
  ps.foldl (fun a p => setPart a (p.1.map lowerChar) p.2) acc

/-- Hygiene of one field value: nonempty, already trimmed, single-line, and
containing no `KEY:` marker of any predefined field. -/
def goodV (v : JStr) : Prop :=
  v ≠ [] ∧ jsTrim v = v ∧ ('\n' ∉ v) ∧
    ∀ K ∈ PREDEFINED_KEYS, includesStr (K ++ str ":") v = false

instance goodV_dec (v : JStr) : Decidable (goodV v) := by
  unfold goodV
  infer_instance

/-- Hygiene of one optional field. -/
def optGood : Option JStr -> Prop
  | none => True
  | some v => goodV v

instance optGood_dec : (o : Option JStr) -> Decidable (optGood o)
  | none => isTrue trivial
  | some v => goodV_dec v

/-- Hygiene of a whole record. -/
def GoodParts (R : Parts) : Prop :=
  optGood R.inquiry ∧ optGood R.tool ∧ optGood R.language ∧ optGood R.thought ∧
    optGood R.keyphrases ∧ optGood R.observation ∧ optGood R.topic

instance GoodParts_dec (R : Parts) : Decidable (GoodParts R) := by
  unfold GoodParts
  infer_instance

/-- The six markers before the `TOPIC` anchor. -/
def PRE_KEYS : List JStr :=
  [str "INQUIRY", str "TOOL", str "LANGUAGE", str "THOUGHT", str "KEYPHRASES",
   str "OBSERVATION"]

/-! ## Proof-side grammar of citation documents (C2) -/

/-- A document grammar for chunk texts on which the rewriting of `push` can
be described marker by marker: a document is a sequence of plain characters
outside the opener class `[\\[\\()]` and of single-digit citation markers
`o w sep d cl` (opener, case variant of `citation`, separator from `[:\\s]`,
one digit, closer). -/
inductive CItem
  | plain (c : Char)
  | marker (o : Char) (w : JStr) (sep : Char) (d : Nat) (cl : Char)
deriving DecidableEq, Repr

def renderItem : CItem → JStr
  | .plain c => [c]
  | .marker o w sep d cl => o :: (w ++ sep :: Char.ofNat (48 + d) :: [cl])

/-- The text of a document. -/
def renderDoc (items : List CItem) : JStr := (items.map renderItem).flatten

/-- Wellformedness of a document item. -/
def itemWf : CItem → Prop
  | .plain c => openerChar c = false
  | .marker o w sep d cl =>
    openerChar o = true ∧ w.map lowerChar = str "citation" ∧ sepChar sep = true ∧
      d < 10 ∧ closerChar cl = true

instance itemWf_dec : (it : CItem) → Decidable (itemWf it)
  | .plain c => by unfold itemWf; infer_instance
  | .marker o w sep d cl => by unfold itemWf; infer_instance

def markerCount (items : List CItem) : Nat :=
  items.countP (fun it => match it with | .plain _ => false | .marker _ _ _ _ _ => true)

/-- One step of the marker-by-marker rewrite described by the spec: a plain
character is copied verbatim; the number of a marker receives its first-seen
ordinal and the whole marker is replaced by `cite ordinal`. -/
def specStep (cite : Nat → JStr) (acc : JStr × List Nat) : CItem → JStr × List Nat
  | .plain c => (acc.1 ++ [c], acc.2)
  | .marker _ _ _ d _ =>
    let refs2 := if acc.2.contains d then acc.2 else acc.2 ++ [d]
    (acc.1 ++ cite (1 + refs2.indexOf d), refs2)

/-- The rewrite of a whole document as the spec describes it. -/
def specRewrite (cite : Nat → JStr) (items : List CItem) : JStr × List Nat :=
  items.foldl (specStep cite) ([], [])

/-- Structural form of the rewritten text of the specification. -/
def specOut (cite : Nat → JStr) : List CItem → List Nat → JStr
  | [], _ => []
  | .plain c :: rest, refs => c :: specOut cite rest refs
  | .marker _ _ _ d _ :: rest, refs =>
    let refs2 := if refs.contains d then refs else refs ++ [d]
    cite (1 + refs2.indexOf d) ++ specOut cite rest refs2

/-- Structural form of the reference list of the specification. -/
def specRefs : List CItem → List Nat → List Nat
  | [], refs => refs
  | .plain _ :: rest, refs => specRefs rest refs
  | .marker _ _ _ d _ :: rest, refs =>
    specRefs rest (if refs.contains d then refs else refs ++ [d])

/-- A concrete document with mixed marker styles. -/
def exampleDoc : List CItem :=
  [CItem.plain 'S', CItem.plain 'e', CItem.plain 'e', CItem.plain ' ',
   CItem.marker '[' (str "citation") ':' 2 ']',
   CItem.plain ' ',
   CItem.marker '(' (str "CITATION") ':' 5 ']',
   CItem.plain ' ',
   CItem.marker '[' (str "Citation") ' ' 2 ')']

/-! ## Theorems: citation stream rewriter chunking (C1, C8, C2 counterexample) -/

set_option maxHeartbeats 1600000 in
theorem canon_row_0 : ∀ j < 53, 0 ≤ j →
    push citeANSI (canon 0) (sliceS 0 j) = canon j := by decide

set_option maxHeartbeats 1600000 in
theorem canon_row_1 : ∀ j < 53, 1 ≤ j →
    push citeANSI (canon 1) (sliceS 1 j) = canon j := by decide

set_option maxHeartbeats 1600000 in
theorem canon_row_2 : ∀ j < 53, 2 ≤ j →
    push citeANSI (canon 2) (sliceS 2 j) = canon j := by decide

set_option maxHeartbeats 1600000 in
theorem canon_row_3 : ∀ j < 53, 3 ≤ j →
    push citeANSI (canon 3) (sliceS 3 j) = canon j := by decide

set_option maxHeartbeats 1600000 in
theorem canon_row_4 : ∀ j < 53, 4 ≤ j →
    push citeANSI (canon 4) (sliceS 4 j) = canon j := by decide

set_option maxHeartbeats 1600000 in
theorem canon_row_5 : ∀ j < 53, 5 ≤ j →
    push citeANSI (canon 5) (sliceS 5 j) = canon j := by decide

set_option maxHeartbeats 1600000 in
theorem canon_row_6 : ∀ j < 53, 6 ≤ j →
    push citeANSI (canon 6) (sliceS 6 j) = canon j := by decide

set_option maxHeartbeats 1600000 in
theorem canon_row_7 : ∀ j < 53, 7 ≤ j →
    push citeANSI (canon 7) (sliceS 7 j) = canon j := by decide

set_option maxHeartbeats 1600000 in
theorem canon_row_8 : ∀ j < 53, 8 ≤ j →
    push citeANSI (canon 8) (sliceS 8 j) = canon j := by decide

set_option maxHeartbeats 1600000 in
theorem canon_row_9 : ∀ j < 53, 9 ≤ j →
    push citeANSI (canon 9) (sliceS 9 j) = canon j := by decide

set_option maxHeartbeats 1600000 in
theorem canon_row_10 : ∀ j < 53, 10 ≤ j →
    push citeANSI (canon 10) (sliceS 10 j) = canon j := by decide

set_option maxHeartbeats 1600000 in
theorem canon_row_11 : ∀ j < 53, 11 ≤ j →
    push citeANSI (canon 11) (sliceS 11 j) = canon j := by decide

set_option maxHeartbeats 1600000 in
theorem canon_row_12 : ∀ j < 53, 12 ≤ j →
    push citeANSI (canon 12) (sliceS 12 j) = canon j := by decide

set_option maxHeartbeats 1600000 in
theorem canon_row_13 : ∀ j < 53, 13 ≤ j →
    push citeANSI (canon 13) (sliceS 13 j) = canon j := by decide

set_option maxHeartbeats 1600000 in
theorem canon_row_14 : ∀ j < 53, 14 ≤ j →
    push citeANSI (canon 14) (sliceS 14 j) = canon j := by decide

set_option maxHeartbeats 1600000 in
theorem canon_row_15 : ∀ j < 53, 15 ≤ j →
    push citeANSI (canon 15) (sliceS 15 j) = canon j := by decide

set_option maxHeartbeats 1600000 in
theorem canon_row_16 : ∀ j < 53, 16 ≤ j →
    push citeANSI (canon 16) (sliceS 16 j) = canon j := by decide

set_option maxHeartbeats 1600000 in
theorem canon_row_17 : ∀ j < 53, 17 ≤ j →
    push citeANSI (canon 17) (sliceS 17 j) = canon j := by decide

set_option maxHeartbeats 1600000 in
theorem canon_row_18 : ∀ j < 53, 18 ≤ j →
    push citeANSI (canon 18) (sliceS 18 j) = canon j := by decide

set_option maxHeartbeats 1600000 in
theorem canon_row_19 : ∀ j < 53, 19 ≤ j →
    push citeANSI (canon 19) (sliceS 19 j) = canon j := by decide

set_option maxHeartbeats 1600000 in
theorem canon_row_20 : ∀ j < 53, 20 ≤ j →
    push citeANSI (canon 20) (sliceS 20 j) = canon j := by decide

set_option maxHeartbeats 1600000 in
theorem canon_row_21 : ∀ j < 53, 21 ≤ j →
    push citeANSI (canon 21) (sliceS 21 j) = canon j := by decide

set_option maxHeartbeats 1600000 in
theorem canon_row_22 : ∀ j < 53, 22 ≤ j →
    push citeANSI (canon 22) (sliceS 22 j) = canon j := by decide

set_option maxHeartbeats 1600000 in
theorem canon_row_23 : ∀ j < 53, 23 ≤ j →
    push citeANSI (canon 23) (sliceS 23 j) = canon j := by decide

set_option maxHeartbeats 1600000 in
theorem canon_row_24 : ∀ j < 53, 24 ≤ j →
    push citeANSI (canon 24) (sliceS 24 j) = canon j := by decide

set_option maxHeartbeats 1600000 in
theorem canon_row_25 : ∀ j < 53, 25 ≤ j →
    push citeANSI (canon 25) (sliceS 25 j) = canon j := by decide

set_option maxHeartbeats 1600000 in
theorem canon_row_26 : ∀ j < 53, 26 ≤ j →
    push citeANSI (canon 26) (sliceS 26 j) = canon j := by decide

set_option maxHeartbeats 1600000 in
theorem canon_row_27 : ∀ j < 53, 27 ≤ j →
    push citeANSI (canon 27) (sliceS 27 j) = canon j := by decide

set_option maxHeartbeats 1600000 in
theorem canon_row_28 : ∀ j < 53, 28 ≤ j →
    push citeANSI (canon 28) (sliceS 28 j) = canon j := by decide

set_option maxHeartbeats 1600000 in
theorem canon_row_29 : ∀ j < 53, 29 ≤ j →
    push citeANSI (canon 29) (sliceS 29 j) = canon j := by decide

set_option maxHeartbeats 1600000 in
theorem canon_row_30 : ∀ j < 53, 30 ≤ j →
    push citeANSI (canon 30) (sliceS 30 j) = canon j := by decide

set_option maxHeartbeats 1600000 in
theorem canon_row_31 : ∀ j < 53, 31 ≤ j →
    push citeANSI (canon 31) (sliceS 31 j) = canon j := by decide

set_option maxHeartbeats 1600000 in
theorem canon_row_32 : ∀ j < 53, 32 ≤ j →
    push citeANSI (canon 32) (sliceS 32 j) = canon j := by decide

set_option maxHeartbeats 1600000 in
theorem canon_row_33 : ∀ j < 53, 33 ≤ j →
    push citeANSI (canon 33) (sliceS 33 j) = canon j := by decide

set_option maxHeartbeats 1600000 in
theorem canon_row_34 : ∀ j < 53, 34 ≤ j →
    push citeANSI (canon 34) (sliceS 34 j) = canon j := by decide

set_option maxHeartbeats 1600000 in
theorem canon_row_35 : ∀ j < 53, 35 ≤ j →
    push citeANSI (canon 35) (sliceS 35 j) = canon j := by decide

set_option maxHeartbeats 1600000 in
theorem canon_row_36 : ∀ j < 53, 36 ≤ j →
    push citeANSI (canon 36) (sliceS 36 j) = canon j := by decide

set_option maxHeartbeats 1600000 in
theorem canon_row_37 : ∀ j < 53, 37 ≤ j →
    push citeANSI (canon 37) (sliceS 37 j) = canon j := by decide

set_option maxHeartbeats 1600000 in
theorem canon_row_38 : ∀ j < 53, 38 ≤ j →
    push citeANSI (canon 38) (sliceS 38 j) = canon j := by decide

set_option maxHeartbeats 1600000 in
theorem canon_row_39 : ∀ j < 53, 39 ≤ j →
    push citeANSI (canon 39) (sliceS 39 j) = canon j := by decide

set_option maxHeartbeats 1600000 in
theorem canon_row_40 : ∀ j < 53, 40 ≤ j →
    push citeANSI (canon 40) (sliceS 40 j) = canon j := by decide

set_option maxHeartbeats 1600000 in
theorem canon_row_41 : ∀ j < 53, 41 ≤ j →
    push citeANSI (canon 41) (sliceS 41 j) = canon j := by decide

set_option maxHeartbeats 1600000 in
theorem canon_row_42 : ∀ j < 53, 42 ≤ j →
    push citeANSI (canon 42) (sliceS 42 j) = canon j := by decide

set_option maxHeartbeats 1600000 in
theorem canon_row_43 : ∀ j < 53, 43 ≤ j →
    push citeANSI (canon 43) (sliceS 43 j) = canon j := by decide

set_option maxHeartbeats 1600000 in
theorem canon_row_44 : ∀ j < 53, 44 ≤ j →
    push citeANSI (canon 44) (sliceS 44 j) = canon j := by decide

set_option maxHeartbeats 1600000 in
theorem canon_row_45 : ∀ j < 53, 45 ≤ j →
    push citeANSI (canon 45) (sliceS 45 j) = canon j := by decide

set_option maxHeartbeats 1600000 in
theorem canon_row_46 : ∀ j < 53, 46 ≤ j →
    push citeANSI (canon 46) (sliceS 46 j) = canon j := by decide

set_option maxHeartbeats 1600000 in
theorem canon_row_47 : ∀ j < 53, 47 ≤ j →
    push citeANSI (canon 47) (sliceS 47 j) = canon j := by decide

set_option maxHeartbeats 1600000 in
theorem canon_row_48 : ∀ j < 53, 48 ≤ j →
    push citeANSI (canon 48) (sliceS 48 j) = canon j := by decide

set_option maxHeartbeats 1600000 in
theorem canon_row_49 : ∀ j < 53, 49 ≤ j →
    push citeANSI (canon 49) (sliceS 49 j) = canon j := by decide

set_option maxHeartbeats 1600000 in
theorem canon_row_50 : ∀ j < 53, 50 ≤ j →
    push citeANSI (canon 50) (sliceS 50 j) = canon j := by decide

set_option maxHeartbeats 1600000 in
theorem canon_row_51 : ∀ j < 53, 51 ≤ j →
    push citeANSI (canon 51) (sliceS 51 j) = canon j := by decide

set_option maxHeartbeats 1600000 in
theorem canon_row_52 : ∀ j < 53, 52 ≤ j →
    push citeANSI (canon 52) (sliceS 52 j) = canon j := by decide

theorem canon_table : ∀ i < 53, ∀ j < 53, i ≤ j →
    push citeANSI (canon i) (sliceS i j) = canon j := by
  intro i hi
  interval_cases i
  · exact canon_row_0
  · exact canon_row_1
  · exact canon_row_2
  · exact canon_row_3
  · exact canon_row_4
  · exact canon_row_5
  · exact canon_row_6
  · exact canon_row_7
  · exact canon_row_8
  · exact canon_row_9
  · exact canon_row_10
  · exact canon_row_11
  · exact canon_row_12
  · exact canon_row_13
  · exact canon_row_14
  · exact canon_row_15
  · exact canon_row_16
  · exact canon_row_17
  · exact canon_row_18
  · exact canon_row_19
  · exact canon_row_20
  · exact canon_row_21
  · exact canon_row_22
  · exact canon_row_23
  · exact canon_row_24
  · exact canon_row_25
  · exact canon_row_26
  · exact canon_row_27
  · exact canon_row_28
  · exact canon_row_29
  · exact canon_row_30
  · exact canon_row_31
  · exact canon_row_32
  · exact canon_row_33
  · exact canon_row_34
  · exact canon_row_35
  · exact canon_row_36
  · exact canon_row_37
  · exact canon_row_38
  · exact canon_row_39
  · exact canon_row_40
  · exact canon_row_41
  · exact canon_row_42
  · exact canon_row_43
  · exact canon_row_44
  · exact canon_row_45
  · exact canon_row_46
  · exact canon_row_47
  · exact canon_row_48
  · exact canon_row_49
  · exact canon_row_50
  · exact canon_row_51
  · exact canon_row_52

theorem canon_zero : canon 0 = initDisplay := by decide

theorem exampleS_length : exampleS.length = 51 := by decide

theorem pushMany_canon : ∀ (chunks : List JStr), ∀ i : Nat, i ≤ 51 →
    chunks.flatten = exampleS.drop i →
    pushMany citeANSI (canon i) chunks = canon 51 := by
  intro chunks
  induction chunks with
  | nil =>
    intro i hi hj
    have hlen : exampleS.length ≤ i := by
      rw [← List.drop_eq_nil_iff]
      exact (List.flatten_nil ▸ hj).symm
    have : i = 51 := by
      have := exampleS_length
      omega
    rw [this]
    rfl
  | cons c rest ih =>
    intro i hi hj
    rw [List.flatten_cons] at hj
    have hdroplen : (exampleS.drop i).length = 51 - i := by
      rw [List.length_drop, exampleS_length]
    have hclen : c.length ≤ 51 - i := by
      have : (c ++ rest.flatten).length = 51 - i := by rw [hj, hdroplen]
      rw [List.length_append] at this
      omega
    have hslice : sliceS i (i + c.length) = c := by
      unfold sliceS
      rw [← hj]
      have : i + c.length - i = c.length := by omega
      rw [this, List.take_left]
    have hrest : rest.flatten = exampleS.drop (i + c.length) := by
      have h1 : exampleS.drop (i + c.length) = (exampleS.drop i).drop c.length := by
        rw [List.drop_drop, Nat.add_comm]
      rw [h1, ← hj, List.drop_left]
    have hstep : push citeANSI (canon i) c = canon (i + c.length) := by
      have h := canon_table i (by omega) (i + c.length) (by omega) (by omega)
      rw [hslice] at h
      exact h
    have hfold : pushMany citeANSI (canon i) (c :: rest) =
        pushMany citeANSI (push citeANSI (canon i) c) rest := rfl
    rw [hfold, hstep]
    exact ih (i + c.length) (by omega) hrest

/-- C1 (counterexample): chunking invariance fails.  The input
`"(citation:10)citation:5]"` pushed as a single chunk leaves the trailing
marker text untouched (`refs = [10]`), because after the first replacement the
regex resumes scanning past the `)` left over from the 13-character match of
which only 12 characters were removed; pushed as two chunks, the second push
rescans the buffer from position 0 and the leftover `)` opens a second match
(`refs = [10, 5]`).  Both the refs sequences and the concatenated print
outputs differ. -/
theorem citation_chunking_cex :
    (str "(citation:10)" ++ str "citation:5]" = str "(citation:10)citation:5]") ∧
    (pushMany citeANSI initDisplay [str "(citation:10)", str "citation:5]"]).refs ≠
      (pushMany citeANSI initDisplay [str "(citation:10)citation:5]"]).refs ∧
    (flush (pushMany citeANSI initDisplay [str "(citation:10)", str "citation:5]"])).out ≠
      (flush (pushMany citeANSI initDisplay [str "(citation:10)citation:5]"])).out := by
  decide

/-- C1 (amended): chunking invariance for the spec's example stream.  For
every way of splitting `"See [citation:2] and [citation:5] and [citation:2]."`
into chunks, pushing the chunks in order and flushing yields the same
concatenated print output as pushing the whole string as one chunk, and the
refs sequence is `[2, 5]` (first-seen order) just before the flush. -/
theorem citation_chunking_exampleS (chunks : List JStr)
    (h : chunks.flatten = exampleS) :
    (pushMany citeANSI initDisplay chunks).refs = [2, 5] ∧
    (flush (pushMany citeANSI initDisplay chunks)).out =
      (flush (push citeANSI initDisplay exampleS)).out := by
  have hmain : pushMany citeANSI initDisplay chunks = canon 51 := by
    have h0 := pushMany_canon chunks 0 (by omega) (by simpa using h)
    rwa [canon_zero] at h0
  have hsingle : push citeANSI initDisplay exampleS = canon 51 := by
    have h1 : canon 51 = push citeANSI initDisplay (exampleS.take 51) := rfl
    rw [h1, List.take_of_length_le (by rw [exampleS_length])]
  rw [hmain, hsingle]
  exact ⟨by decide, rfl⟩

/-- Witness for `citation_chunking_exampleS` at a concrete two-chunk split. -/
theorem citation_chunking_exampleS_witness :
    ([str "See [citation:2] and [cit", str "ation:5] and [citation:2]."].flatten = exampleS) ∧
    (pushMany citeANSI initDisplay
        [str "See [citation:2] and [cit", str "ation:5] and [citation:2]."]).refs = [2, 5] ∧
    (flush (pushMany citeANSI initDisplay
        [str "See [citation:2] and [cit", str "ation:5] and [citation:2]."])).out =
      (flush (push citeANSI initDisplay exampleS)).out := by
  refine ⟨by decide, ?_⟩
  exact citation_chunking_exampleS _ (by decide)

/-- C8 (counterexample): `flush` does not emit the entire remaining buffer:
it emits `buffer.trimEnd()`, so trailing whitespace of the stream is dropped
and the concatenated prints do not reproduce the full rewritten text. -/
theorem flush_entire_buffer_cex :
    (push citeANSI initDisplay (str "hi ")).buffer = str "hi " ∧
    (flush (push citeANSI initDisplay (str "hi "))).out = str "hi" ∧
    str "hi" ≠ str "hi " := by
  decide

/-- C8 (amended): `flush` prints the remaining buffer with its trailing
whitespace trimmed and resets the state to an empty buffer and empty refs;
for the spec's example stream, under every chunking, the concatenation of all
print invocations across the pushes and the flush reproduces the full
rewritten text exactly, and no raw `citation` marker text ever reaches the
printed output. -/
theorem flush_reset_and_stream_reproduction :
    (∀ d : Display, flush d = ⟨[], [], d.out ++ jsTrimEnd d.buffer⟩) ∧
    (∀ chunks : List JStr, chunks.flatten = exampleS →
      (flush (pushMany citeANSI initDisplay chunks)).out = exampleSRewritten ∧
      includesStr (str "citation") (flush (pushMany citeANSI initDisplay chunks)).out = false) := by
  constructor
  · intro d
    rfl
  · intro chunks h
    have hmain : pushMany citeANSI initDisplay chunks = canon 51 := by
      have h0 := pushMany_canon chunks 0 (by omega) (by simpa using h)
      rwa [canon_zero] at h0
    rw [hmain]
    exact ⟨by decide, by decide⟩

/-- Witness for `flush_reset_and_stream_reproduction` at concrete inputs. -/
theorem flush_reset_and_stream_reproduction_witness :
    (flush ⟨str "b ", [7], str "a"⟩ = ⟨[], [], str "a" ++ jsTrimEnd (str "b ")⟩) ∧
    ((flush (pushMany citeANSI initDisplay [exampleS])).out = exampleSRewritten ∧
      includesStr (str "citation") (flush (pushMany citeANSI initDisplay [exampleS])).out = false) := by
  refine ⟨flush_reset_and_stream_reproduction.1 ⟨str "b ", [7], str "a"⟩, ?_⟩
  exact flush_reset_and_stream_reproduction.2 [exampleS] (by decide)

/-- C2 (counterexample): `push` does not replace the matched span.  For the
13-character marker `[citation:10]` the code removes exactly 12 characters,
so the closing `]` of the match survives next to the formatted citation. -/
theorem citation_span_replacement_cex :
    (push citeANSI initDisplay (str "[citation:10]")).refs = [10] ∧
    (push citeANSI initDisplay (str "[citation:10]")).buffer = citeANSI 1 ++ str "]" ∧
    citeANSI 1 ++ str "]" ≠ citeANSI 1 := by
  decide

/-! ## Occurrence toolkit for `indexOf` / `lastIndexOf` -/

theorem occursAtB_iff {pat s : JStr} {i : Nat} :
    occursAtB pat s i = true ↔ pat <+: s.drop i := by
  simp [occursAtB]

theorem occursAtB_beyond {pat s : JStr} {i : Nat} (hp : pat ≠ []) (h : s.length ≤ i) :
    occursAtB pat s i = false := by
  unfold occursAtB
  rw [List.drop_eq_nil_iff.mpr h]
  cases pat with
  | nil => exact absurd rfl hp
  | cons c cs => simp [List.isPrefixOf]

theorem jsIndexOfAux_none_iff {pat s : JStr} : ∀ (fuel i : Nat),
    jsIndexOfAux pat s i fuel = none ↔ ∀ k ≤ fuel, occursAtB pat s (i + k) = false := by
  intro fuel
  induction fuel with
  | zero =>
    intro i
    unfold jsIndexOfAux
    by_cases hocc : occursAtB pat s i = true
    · constructor
      · intro h
        rw [if_pos hocc] at h
        exact absurd h (by simp)
      · intro h
        have h0 := h 0 (by omega)
        rw [Nat.add_zero] at h0
        simp [hocc] at h0
    · simp at hocc
      rw [if_neg (by simp [hocc])]
      constructor
      · intro _ k hk
        have : k = 0 := by omega
        simpa [this] using hocc
      · intro _
        rfl
  | succ fuel ih =>
    intro i
    unfold jsIndexOfAux
    by_cases hocc : occursAtB pat s i = true
    · constructor
      · intro h
        rw [if_pos hocc] at h
        exact absurd h (by simp)
      · intro h
        have h0 := h 0 (by omega)
        rw [Nat.add_zero] at h0
        simp [hocc] at h0
    · simp at hocc
      rw [if_neg (by simp [hocc])]
      rw [ih (i + 1)]
      constructor
      · intro h k hk
        match k with
        | 0 => simpa using hocc
        | k + 1 =>
          have := h k (by omega)
          simpa [Nat.add_assoc, Nat.add_comm 1 k] using this
      · intro h k hk
        have := h (k + 1) (by omega)
        simpa [Nat.add_assoc, Nat.add_comm 1 k] using this

theorem includesStr_false_forall {pat s : JStr} (hp : pat ≠ [])
    (h : includesStr pat s = false) : ∀ j, occursAtB pat s j = false := by
  intro j
  by_cases hj : j ≤ s.length
  · have h0 : jsIndexOf pat s = none := by
      unfold includesStr at h
      cases hidx : jsIndexOf pat s
      · rfl
      · rw [hidx] at h; simp at h
    have := (jsIndexOfAux_none_iff s.length 0).mp h0 j hj
    simpa using this
  · exact occursAtB_beyond hp (by omega)

theorem jsLastIndexOfAux_eq_none {pat s : JStr} : ∀ n, (∀ q, q ≤ n → occursAtB pat s q = false) →
    jsLastIndexOfAux pat s n = none := by
  intro n
  induction n with
  | zero =>
    intro h
    unfold jsLastIndexOfAux
    simp [h 0 (by omega)]
  | succ m ih =>
    intro h
    unfold jsLastIndexOfAux
    rw [h (m + 1) (by omega)]
    simpa using ih (fun q hq => h q (by omega))

theorem jsLastIndexOfAux_eq_some {pat s : JStr} {p : Nat} : ∀ n, p ≤ n →
    occursAtB pat s p = true → (∀ q, p < q → q ≤ n → occursAtB pat s q = false) →
    jsLastIndexOfAux pat s n = some p := by
  intro n
  induction n with
  | zero =>
    intro hp hocc _
    have hz : p = 0 := by omega
    subst hz
    unfold jsLastIndexOfAux
    simp [hocc]
  | succ m ih =>
    intro hp hocc hafter
    unfold jsLastIndexOfAux
    by_cases hpm : p = m + 1
    · subst hpm; simp [hocc]
    · rw [hafter (m + 1) (by omega) (by omega)]
      simpa using ih (by omega) hocc (fun q h1 h2 => hafter q h1 (by omega))

theorem jsLastIndexOf_eq_none {pat s : JStr} (hp : pat ≠ [])
    (h : includesStr pat s = false) : jsLastIndexOf pat s = none :=
  jsLastIndexOfAux_eq_none _ (fun q _ => includesStr_false_forall hp h q)

theorem jsLastIndexOf_eq_some {pat s : JStr} {p : Nat} (hp : pat ≠ [])
    (hocc : occursAtB pat s p = true) (hafter : ∀ q, p < q → occursAtB pat s q = false) :
    jsLastIndexOf pat s = some p := by
  have hple : p ≤ s.length := by
    by_contra hgt
    rw [occursAtB_beyond hp (by omega)] at hocc
    exact absurd hocc (by simp)
  exact jsLastIndexOfAux_eq_some _ hple hocc (fun q h1 _ => hafter q h1)

theorem occursAtB_of_prefix {pat pre s : JStr} {q : Nat} (hpre : pre <+: s)
    (h : occursAtB pat pre q = true) : occursAtB pat s q = true := by
  rw [occursAtB_iff] at h ⊢
  exact h.trans (hpre.drop q)

theorem isPrefix_getElem? {α : Type} {x y : List α} (h : x <+: y) {n : Nat}
    (hn : n < x.length) : y[n]? = x[n]? := by
  obtain ⟨t, rfl⟩ := h
  rw [List.getElem?_append_left hn]

theorem occursAt_append_single {pat a b : JStr} {c : Char} {q : Nat}
    (hc : c ∉ pat)
    (h : occursAtB pat (a ++ c :: b) q = true) :
    occursAtB pat a q = true ∨ (∃ k, q = a.length + 1 + k ∧ occursAtB pat b k = true) := by
  rw [occursAtB_iff] at h
  by_cases h1 : q + pat.length ≤ a.length
  · left
    rw [occursAtB_iff]
    have hq : q ≤ a.length := by omega
    rw [List.drop_append_eq_append_drop, Nat.sub_eq_zero_of_le hq, List.drop_zero] at h
    exact (List.isPrefix_append_of_length (by rw [List.length_drop]; omega)).mp h
  · by_cases h2 : a.length + 1 ≤ q
    · right
      refine ⟨q - a.length - 1, by omega, ?_⟩
      rw [occursAtB_iff]
      have heq : (a ++ c :: b).drop q = b.drop (q - a.length - 1) := by
        have h3 : a ++ c :: b = (a ++ [c]) ++ b := by simp
        have h4 : q = (a ++ [c]).length + (q - a.length - 1) := by simp; omega
        calc (a ++ c :: b).drop q
            = ((a ++ [c]) ++ b).drop ((a ++ [c]).length + (q - a.length - 1)) := by
              rw [← h4, ← h3]
          _ = b.drop (q - a.length - 1) := List.drop_append _
      rwa [heq] at h
    · exfalso
      have hql : q ≤ a.length := by omega
      have hin : a.length - q < pat.length := by omega
      have hchar : pat[a.length - q]? = some c := by
        have e1 : ((a ++ c :: b).drop q)[a.length - q]? = pat[a.length - q]? :=
          isPrefix_getElem? h hin
        rw [List.getElem?_drop] at e1
        have e2 : q + (a.length - q) = a.length := by omega
        rw [e2] at e1
        have e3 : (a ++ c :: b)[a.length]? = some c := by
          rw [List.getElem?_append_right (by omega)]
          simp
        rw [e3] at e1
        exact e1.symm
      have : c ∈ pat := by
        have := List.getElem?_eq_some_iff.mp hchar
        obtain ⟨hlt, hget⟩ := this
        exact hget ▸ List.getElem_mem hlt
      exact hc this

/-! ## Theorems: codec anchor behaviour (C9) -/

/-- Helper: without the `TOPIC:` anchor anywhere in the text, `deconstruct`
returns the empty record. -/
theorem deconstruct_of_no_anchor (text : JStr)
    (h : includesStr (str "TOPIC:") text = false) : deconstruct text = emptyParts := by
  have hnone : jsLastIndexOf ((PREDEFINED_KEYS.getLast?).getD [] ++ str ":") text = none := by
    have he : ((PREDEFINED_KEYS.getLast?).getD [] ++ str ":") = str "TOPIC:" := by decide
    rw [he]
    exact jsLastIndexOf_eq_none (by decide) h
  simp only [deconstruct]
  rw [hnone]

/-- C9: anchor-or-nothing decoding.  If the terminal marker `TOPIC:` does not
occur in the input, `deconstruct` yields the empty record even when earlier
markers occur with well-formed values (`deconstruct` is a total function of
the model, so it cannot throw). -/
theorem deconstruct_anchor_or_nothing (text : JStr)
    (h : includesStr (str "TOPIC:") text = false) :
    deconstruct text = emptyParts :=
  deconstruct_of_no_anchor text h

/-- Witness for `deconstruct_anchor_or_nothing`: earlier markers present with
well-formed values, no `TOPIC:` anchor. -/
theorem deconstruct_anchor_or_nothing_witness :
    includesStr (str "TOPIC:") (str "LANGUAGE: French\nKEYPHRASES: Eiffel") = false ∧
    includesStr (str "LANGUAGE:") (str "LANGUAGE: French\nKEYPHRASES: Eiffel") = true ∧
    deconstruct (str "LANGUAGE: French\nKEYPHRASES: Eiffel") = emptyParts := by
  refine ⟨by decide, by decide, ?_⟩
  exact deconstruct_anchor_or_nothing _ (by decide)

/-! ## Theorems: completion client retry policy (C3) -/

/-- C3: on a timeout or remote (`EvalError`) failure, `chat` retries with
backoff delays `attempt_index × 1500` ms and at most `3` attempts total:
two retryable failures followed by a success yield the successful result
after exactly the two delays `[1500, 3000]`; three failures yield the final
error after `3` attempts; a non-retryable failure propagates immediately
with no delay. -/
theorem chat_retry_policy :
    (∀ (bk : Nat → Except JsErr JStr) (e0 e1 : JsErr) (s : JStr),
      bk 0 = .error e0 → retryableName e0 = true →
      bk 1 = .error e1 → retryableName e1 = true → bk 2 = .ok s →
      chatRetry bk = (.ok s, 3, [1500, 3000])) ∧
    (∀ (bk : Nat → Except JsErr JStr) (e0 e1 e2 : JsErr),
      bk 0 = .error e0 → retryableName e0 = true →
      bk 1 = .error e1 → retryableName e1 = true → bk 2 = .error e2 →
      chatRetry bk = (.error e2, 3, [1500, 3000])) ∧
    (∀ (bk : Nat → Except JsErr JStr) (e : JsErr),
      bk 0 = .error e → retryableName e = false →
      chatRetry bk = (.error e, 1, [])) := by
  refine ⟨?_, ?_, ?_⟩
  · intro bk e0 e1 s h0 hr0 h1 hr1 h2
    simp [chatRetry, chatGo, MAX_RETRY_ATTEMPT, h0, hr0, h1, hr1, h2]
  · intro bk e0 e1 e2 h0 hr0 h1 hr1 h2
    simp [chatRetry, chatGo, MAX_RETRY_ATTEMPT, h0, hr0, h1, hr1, h2]
  · intro bk e h0 hr0
    simp [chatRetry, chatGo, MAX_RETRY_ATTEMPT, h0, hr0]

/-- Witness for `chat_retry_policy` on three concrete backends. -/
theorem chat_retry_policy_witness :
    chatRetry (fun n => if n = 0 then .error .timeoutError
      else if n = 1 then .error .evalError else .ok (str "done")) =
      (.ok (str "done"), 3, [1500, 3000]) ∧
    chatRetry (fun _ => .error .timeoutError) = (.error .timeoutError, 3, [1500, 3000]) ∧
    chatRetry (fun _ => .error .typeError) = (.error .typeError, 1, []) := by
  refine ⟨?_, ?_, ?_⟩
  · exact chat_retry_policy.1 _ .timeoutError .evalError _ rfl rfl rfl rfl rfl
  · exact chat_retry_policy.2.1 _ .timeoutError .timeoutError .timeoutError rfl rfl rfl rfl rfl
  · exact chat_retry_policy.2.2 _ .typeError rfl rfl

/-! ## Theorems: stage merge precedence (C10) -/

/-- C10: `reason` and `respond` spread the input context *last*, so every
field already bound on the input survives unchanged (a pre-bound `answer`
passes through `respond` untouched); `search` spreads the input context
*first* and its fresh `references` always override. -/
theorem stage_merge_precedence :
    (∀ (oracle : List JMessage → JStr) (ctx : Context) (v : JStr),
      ctx.language = some v → ((reason oracle ctx).1).language = some v) ∧
    (∀ (oracle : List JMessage → JStr) (ctx : Context) (v : JStr),
      ctx.topic = some v → ((reason oracle ctx).1).topic = some v) ∧
    (∀ (oracle : List JMessage → JStr) (ctx : Context) (v : JStr),
      ctx.thought = some v → ((reason oracle ctx).1).thought = some v) ∧
    (∀ (oracle : List JMessage → JStr) (ctx : Context) (v : JStr),
      ctx.keyphrases = some v → ((reason oracle ctx).1).keyphrases = some v) ∧
    (∀ (oracle : List JMessage → JStr) (ctx : Context) (v : JStr),
      ctx.observation = some v → ((reason oracle ctx).1).observation = some v) ∧
    (∀ (oracle : List JMessage → JStr) (ctx : Context) (v : JStr),
      ctx.answer = some v → (respond oracle ctx).answer = some v) ∧
    (∀ (fetchO : Nat → SearxFetch) (ctx : Context) (t k : JStr)
      (refs : List Reference) (n : Nat) (ds : List Nat),
      ctx.topic = some t → ctx.keyphrases = some k →
      searxngRetry fetchO = (.ok refs, n, ds) →
      search fetchO ctx = .ok ({ ctx with references := some refs }, n, ds)) := by
  refine ⟨?_, ?_, ?_, ?_, ?_, ?_, ?_⟩
  · intro oracle ctx v h; simp [reason, spreadLast, h]
  · intro oracle ctx v h; simp [reason, spreadLast, h]
  · intro oracle ctx v h; simp [reason, spreadLast, h]
  · intro oracle ctx v h; simp [reason, spreadLast, h]
  · intro oracle ctx v h; simp [reason, spreadLast, h]
  · intro oracle ctx v h; simp [respond, spreadLast, h]
  · intro fetchO ctx t k refs n ds ht hk hr
    simp [search, ht, hk, hr]

/-- Witness for `stage_merge_precedence` on concrete inputs. -/
theorem stage_merge_precedence_witness :
    ((reason (fun _ => []) ⟨str "q", [], some (str "French"), some (str "topicx"),
        some (str "th"), some (str "kp"), some (str "obs"), some (str "ans"), none⟩).1).language =
      some (str "French") ∧
    ((reason (fun _ => []) ⟨str "q", [], some (str "French"), some (str "topicx"),
        some (str "th"), some (str "kp"), some (str "obs"), some (str "ans"), none⟩).1).topic =
      some (str "topicx") ∧
    (respond (fun _ => str "fresh") ⟨str "q", [], some (str "French"), some (str "topicx"),
        some (str "th"), some (str "kp"), some (str "obs"), some (str "ans"), none⟩).answer =
      some (str "ans") ∧
    search (fun _ => .ok (str "Result (https://a.com) found"))
        ⟨str "q", [], some (str "French"), some (str "topicx"),
         some (str "th"), some (str "kp"), some (str "obs"), some (str "ans"),
         some [⟨9, str "old", none, str "old"⟩]⟩ =
      .ok (⟨str "q", [], some (str "French"), some (str "topicx"),
         some (str "th"), some (str "kp"), some (str "obs"), some (str "ans"),
         some [⟨1, str "https://a.com", some (str "Answers"), str "AnswersResult"⟩]⟩, 1, []) := by
  refine ⟨?_, ?_, ?_, ?_⟩
  · exact stage_merge_precedence.1 _ _ _ rfl
  · exact stage_merge_precedence.2.1 _ _ _ rfl
  · exact stage_merge_precedence.2.2.2.2.2.1 _ _ _ rfl
  · exact stage_merge_precedence.2.2.2.2.2.2 _ _ (str "topicx") (str "kp") _ 1 [] rfl rfl (by decide)

/-! ## Theorems: streaming fragment accumulation (C5) -/

theorem splitOnCharAux_sep {sep : Char} : ∀ (l rest acc : JStr), sep ∉ l →
    splitOnCharAux sep (l ++ sep :: rest) acc =
      (acc.reverse ++ l) :: splitOnCharAux sep rest [] := by
  intro l
  induction l with
  | nil =>
    intro rest acc _
    simp [splitOnCharAux]
  | cons c l ih =>
    intro rest acc hmem
    have hc : c ≠ sep := by
      intro h; exact hmem (h ▸ List.mem_cons_self c l)
    have hl : sep ∉ l := fun h => hmem (List.mem_cons_of_mem c h)
    simp only [List.cons_append, splitOnCharAux, List.append_eq, if_neg (fun h => hc h)]
    rw [ih rest (c :: acc) hl]
    simp

theorem splitOnChar_line {l : JStr} (h : '\n' ∉ l) :
    splitOnChar '\n' (l ++ str "\n") = [l, []] := by
  have : str "\n" = '\n' :: ([] : JStr) := rfl
  rw [this]
  unfold splitOnChar
  rw [splitOnCharAux_sep l [] [] h]
  rfl

theorem processLines_line {parseFn : JStr -> ParseR} {l f answer : JStr} {calls : List JStr}
    (h1 : l ≠ []) (h2 : l.head? ≠ some ':') (h3 : l ≠ str "data: [DONE]")
    (hp : parseFn (jsTrim l) = .frag f) (hf : f ≠ []) :
    processLines parseFn [l, []] (answer, [], calls) =
      ((specStepAcc (answer, calls) f).1, [], (specStepAcc (answer, calls) f).2) := by
  have hlen : l.length > 0 := by
    cases l with
    | nil => exact absurd rfl h1
    | cons c cs => simp
  have hflen : f.length > 0 := by
    cases f with
    | nil => exact absurd rfl hf
    | cons c cs => simp
  have hcons : ∀ (l2 : JStr) (rest : List JStr) (st : JStr × JStr × List JStr),
      processLines parseFn (l2 :: rest) st =
        match plStep parseFn l2 st with
        | none => st
        | some st2 => processLines parseFn rest st2 := fun _ _ _ => rfl
  have hstep : plStep parseFn l (answer, [], calls) =
      some ((specStepAcc (answer, calls) f).1, [], (specStepAcc (answer, calls) f).2) := by
    unfold plStep
    simp only [List.nil_append]
    rw [if_neg h2, if_neg h3, if_pos hlen, hp]
    simp only []
    rw [if_pos hflen]
    by_cases ha : answer.length < 1
    · simp [specStepAcc, ha]
    · simp [specStepAcc, ha]
  have hstep2 : ∀ a : JStr, ∀ c : List JStr, plStep parseFn ([] : JStr) (a, [], c) =
      some (a, [], c) := by
    intro a c
    unfold plStep
    simp only [List.append_nil]
    rw [if_neg (by decide), if_neg (by decide), if_neg (by decide)]
  rw [hcons, hstep]
  simp only []
  rw [hcons, hstep2]
  rfl

theorem chatSSE_fold (parseFn : JStr -> ParseR) :
    ∀ (pairs : List (JStr × JStr)) (answer : JStr) (calls : List JStr),
    (∀ p ∈ pairs, parseFn (jsTrim p.1) = .frag p.2 ∧ p.1 ≠ [] ∧ p.1.head? ≠ some ':' ∧
      p.1 ≠ str "data: [DONE]" ∧ ('\n' ∉ p.1) ∧ p.2 ≠ []) →
    (pairs.map (fun p => p.1 ++ str "\n")).foldl
        (fun st read => processLines parseFn (splitOnChar '\n' read) st) (answer, [], calls)
      = (((pairs.map Prod.snd).foldl specStepAcc (answer, calls)).1, [],
         ((pairs.map Prod.snd).foldl specStepAcc (answer, calls)).2) := by
  intro pairs
  induction pairs with
  | nil => intro answer calls _; rfl
  | cons p ps ih =>
    intro answer calls h
    obtain ⟨hp, h1, h2, h3, h4, hf⟩ := h p (List.mem_cons_self p ps)
    simp only [List.map_cons, List.foldl_cons]
    rw [splitOnChar_line h4, processLines_line h1 h2 h3 hp hf]
    exact ih _ _ (fun q hq => h q (List.mem_cons_of_mem p hq))

/-- C5 (counterexample): the first non-empty fragment is trimmed with
`trim()`, which removes *trailing* whitespace as well, so the accumulated
answer differs from what leading-whitespace-only trimming would give. -/
theorem chatSSE_first_fragment_cex :
    chatSSE
      (fun l => if l = str "data: X" then .frag (str "\nHello ")
        else if l = str "data: Y" then .frag (str "world") else .null)
      [str "data: X\n", str "data: Y\n"]
      = (str "Helloworld", [str "Hello", str "world"]) ∧
    leadTrimOnly (str "\nHello ") ++ str "world" = str "Hello world" ∧
    str "Helloworld" ≠ str "Hello world" := by
  decide

/-- C5 (amended): for every SSE stream of complete `data:` lines whose
payloads parse to non-empty fragments, the accumulated answer and the
`onPartial` notifications follow `specAccum`: the first non-blank fragment is
trimmed on both sides (and skipped entirely while it trims to blank), later
fragments are appended verbatim, and each emitted fragment is forwarded to
the handler (the first one in its trimmed form). -/
theorem chatSSE_accumulation (parseFn : JStr -> ParseR) (pairs : List (JStr × JStr))
    (h : ∀ p ∈ pairs, parseFn (jsTrim p.1) = .frag p.2 ∧ p.1 ≠ [] ∧ p.1.head? ≠ some ':' ∧
      p.1 ≠ str "data: [DONE]" ∧ ('\n' ∉ p.1) ∧ p.2 ≠ []) :
    chatSSE parseFn (pairs.map (fun p => p.1 ++ str "\n")) = specAccum (pairs.map Prod.snd) := by
  unfold chatSSE specAccum
  rw [chatSSE_fold parseFn pairs [] [] h]

/-- Witness for `chatSSE_accumulation` at a concrete stream. -/
theorem chatSSE_accumulation_witness :
    chatSSE
      (fun l => if l = str "data: X" then .frag (str "\nHello ")
        else if l = str "data: Y" then .frag (str " world ") else .null)
      ([(str "data: X", str "\nHello "), (str "data: Y", str " world ")].map
        (fun p => p.1 ++ str "\n"))
      = specAccum [str "\nHello ", str " world "] := by
  exact chatSSE_accumulation _ _ (by decide)

/-! ## Theorems: reasoning stage self-repair (C7) -/

theorem setPart_topic_of_ne (p : Parts) (key v : JStr) (h : key ≠ str "topic") :
    (setPart p key v).topic = p.topic := by
  unfold setPart
  split_ifs <;> simp_all

theorem foldl_deconsStep_topic : ∀ (keysL : List JStr) (st : JStr × Parts),
    (∀ q, occursAtB (str "TOPIC:") st.1 q = false) →
    (∀ marker ∈ keysL, marker ++ str ":" = str "TOPIC:" ∨ marker.map lowerChar ≠ str "topic") →
    ((keysL.foldl deconsStep st).2).topic = st.2.topic := by
  intro keysL
  induction keysL with
  | nil => intro st _ _; rfl
  | cons k ks ih =>
    intro st hP hks
    rw [List.foldl_cons]
    rcases hks k (List.mem_cons_self k ks) with hk | hk
    · have hnone : jsLastIndexOf (k ++ str ":") st.1 = none := by
        rw [hk]
        exact jsLastIndexOfAux_eq_none _ (fun q _ => hP q)
      have hstep : deconsStep st k = st := by
        unfold deconsStep
        rw [hnone]
      rw [hstep]
      exact ih st hP (fun m hm => hks m (List.mem_cons_of_mem k hm))
    · cases hidx : jsLastIndexOf (k ++ str ":") st.1 with
      | none =>
        have hstep : deconsStep st k = st := by
          unfold deconsStep
          rw [hidx]
        rw [hstep]
        exact ih st hP (fun m hm => hks m (List.mem_cons_of_mem k hm))
      | some pos =>
        have hstep : deconsStep st k =
            (st.1.take pos, setPart st.2 (k.map lowerChar)
              ((splitOnChar '\n' (jsTrim (st.1.drop (pos + k.length + 1)))).headI)) := by
          unfold deconsStep
          rw [hidx]
        rw [hstep]
        have hP' : ∀ q, occursAtB (str "TOPIC:") (st.1.take pos) q = false := by
          intro q
          by_cases hq : occursAtB (str "TOPIC:") (st.1.take pos) q = true
          · have := occursAtB_of_prefix (List.take_prefix pos st.1) hq
            rw [hP q] at this
            exact absurd this (by simp)
          · simpa using hq
        rw [ih _ hP' (fun m hm => hks m (List.mem_cons_of_mem k hm))]
        exact setPart_topic_of_ne _ _ _ hk

/-- Helper: appending the synthetic topic line to anchor-free text decodes
with `topic = "general knowledge."`. -/
theorem deconstruct_synthetic_topic (t : JStr)
    (h : includesStr (str "TOPIC:") t = false) :
    (deconstruct (t ++ str "\n" ++ str "TOPIC: general knowledge.")).topic =
      some (str "general knowledge.") := by
  have hforall : ∀ q, occursAtB (str "TOPIC:") t q = false :=
    includesStr_false_forall (by decide) h
  have happ : t ++ str "\n" ++ str "TOPIC: general knowledge." =
      t ++ '\n' :: str "TOPIC: general knowledge." := by
    rw [List.append_assoc]
    rfl
  have hnl : ('\n' : Char) ∉ str "TOPIC:" := by decide
  have htail : ∀ k, 1 ≤ k →
      occursAtB (str "TOPIC:") (str "TOPIC: general knowledge.") k = false := by
    intro k hk
    by_cases hk26 : k < 26
    · revert hk
      revert hk26
      revert k
      decide
    · exact occursAtB_beyond (by decide) (by simp [str]; omega)
  have hsome : jsLastIndexOf (str "TOPIC:") (t ++ '\n' :: str "TOPIC: general knowledge.") =
      some (t.length + 1) := by
    apply jsLastIndexOf_eq_some (by decide)
    · rw [occursAtB_iff]
      have hdrop : (t ++ '\n' :: str "TOPIC: general knowledge.").drop (t.length + 1) =
          str "TOPIC: general knowledge." := by
        have h3 : t ++ '\n' :: str "TOPIC: general knowledge." =
            (t ++ ['\n']) ++ str "TOPIC: general knowledge." := by simp
        have h4 : t.length + 1 = (t ++ ['\n']).length + 0 := by simp
        rw [h3, h4, List.drop_append]
        rfl
      rw [hdrop]
      decide
    · intro q hq
      by_cases hocc : occursAtB (str "TOPIC:") (t ++ '\n' :: str "TOPIC: general knowledge.") q = true
      · rcases occursAt_append_single hnl hocc with hin | ⟨k, hkq, hink⟩
        · rw [hforall q] at hin
          exact absurd hin (by simp)
        · have hk1 : 1 ≤ k := by omega
          rw [htail k hk1] at hink
          exact absurd hink (by simp)
      · simpa using hocc
  rw [happ]
  simp only [deconstruct]
  have hanch0 : PREDEFINED_KEYS.getLast?.getD [] = str "TOPIC" := by decide
  rw [hanch0]
  have hanch1 : str "TOPIC" ++ str ":" = str "TOPIC:" := by decide
  rw [hanch1]
  rw [hsome]
  have hdrop : (t ++ '\n' :: str "TOPIC: general knowledge.").drop (t.length + 1) =
      str "TOPIC: general knowledge." := by
    have h3 : t ++ '\n' :: str "TOPIC: general knowledge." =
        (t ++ ['\n']) ++ str "TOPIC: general knowledge." := by simp
    have h4 : t.length + 1 = (t ++ ['\n']).length + 0 := by simp
    rw [h3, h4, List.drop_append]
    rfl
  have htake : (t ++ '\n' :: str "TOPIC: general knowledge.").take (t.length + 1) =
      t ++ ['\n'] := by
    have h3 : t ++ '\n' :: str "TOPIC: general knowledge." =
        (t ++ ['\n']) ++ str "TOPIC: general knowledge." := by simp
    have h4 : t.length + 1 = (t ++ ['\n']).length + 0 := by simp
    rw [h3, h4, List.take_append]
    simp
  simp only [hdrop, htake]
  have hPnl : ∀ q, occursAtB (str "TOPIC:") (t ++ ['\n']) q = false := by
    intro q
    by_cases hocc : occursAtB (str "TOPIC:") (t ++ ['\n']) q = true
    · have : t ++ ['\n'] = t ++ '\n' :: ([] : JStr) := rfl
      rw [this] at hocc
      rcases occursAt_append_single hnl hocc with hin | ⟨k, _, hink⟩
      · rw [hforall q] at hin
        exact absurd hin (by simp)
      · rw [occursAtB_beyond (by decide) (by simp)] at hink
        exact absurd hink (by simp)
    · simpa using hocc
  rw [foldl_deconsStep_topic _ _ hPnl (by decide)]
  rfl

/-- C7: if the first decoded record has no (or an empty) `keyphrases` field,
`reason` issues exactly one repair request — two chat calls in total — and
otherwise exactly one; when `topic` did not decode, `breakdown` appends the
synthetic `TOPIC: general knowledge.` line and re-decodes locally (no
further backend involvement), which yields `topic = "general knowledge."`
whenever the original text had no anchor at all. -/
theorem reason_single_repair :
    (∀ (oracle : List JMessage → JStr) (ctx : Context),
      truthy (breakdown hintReason (oracle (reasonMessages ctx))).keyphrases = false →
      (reason oracle ctx).2 = 2) ∧
    (∀ (oracle : List JMessage → JStr) (ctx : Context),
      truthy (breakdown hintReason (oracle (reasonMessages ctx))).keyphrases = true →
      (reason oracle ctx).2 = 1) ∧
    (∀ hint completion : JStr,
      truthy (deconstruct (breakdownText hint completion)).topic = false →
      breakdown hint completion =
        deconstruct (breakdownText hint completion ++ str "\n" ++
          str "TOPIC: general knowledge.")) ∧
    (∀ hint completion : JStr,
      includesStr (str "TOPIC:") (breakdownText hint completion) = false →
      (breakdown hint completion).topic = some (str "general knowledge.")) := by
  refine ⟨?_, ?_, ?_, ?_⟩
  · intro oracle ctx h
    simp [reason, h]
  · intro oracle ctx h
    simp [reason, h]
  · intro hint completion h
    simp [breakdown, h]
  · intro hint completion h
    have h1 : truthy (deconstruct (breakdownText hint completion)).topic = false := by
      rw [deconstruct_of_no_anchor _ h]
      rfl
    have h2 : breakdown hint completion =
        deconstruct (breakdownText hint completion ++ str "\n" ++
          str "TOPIC: general knowledge.") := by
      simp [breakdown, h1]
    rw [h2]
    exact deconstruct_synthetic_topic _ h

/-- Witness for `reason_single_repair` at concrete oracles. -/
theorem reason_single_repair_witness :
    (reason (fun _ => str "IGNORED")
      ⟨str "q", [], none, none, none, none, none, none, none⟩).2 = 2 ∧
    (reason (fun _ => str "KEYPHRASES: x\nTOPIC: y")
      ⟨str "q", [], none, none, none, none, none, none, none⟩).2 = 1 ∧
    breakdown [] (str "hello") =
      deconstruct (breakdownText [] (str "hello") ++ str "\n" ++
        str "TOPIC: general knowledge.") ∧
    (breakdown [] (str "hello")).topic = some (str "general knowledge.") := by
  refine ⟨?_, ?_, ?_, ?_⟩
  · exact reason_single_repair.1 _ _ (by decide)
  · exact reason_single_repair.2.1 _ _ (by decide)
  · exact reason_single_repair.2.2.1 [] (str "hello") (by decide)
  · exact reason_single_repair.2.2.2 [] (str "hello") (by decide)

/-! ## Theorems: search result filtering and retry (C6) -/

/-- C6 (counterexample): the filter before the top-K cut checks only the URL.
An entry with a URL but an empty description (and not even a title) survives
into the references — with the JS artifact snippet `undefined` — so entries
lacking a non-empty snippet are *not* excluded. -/
theorem search_filter_cex :
    parseSearx (str "Intro (https://a.com) ok[https://b.com) x### (https://c.com)") =
      .ok [⟨some (str "Answers"), some (str "https://a.com"), str "Intro"⟩,
           ⟨none, some (str "https://c.com"), []⟩] ∧
    searxngAttempt (.ok (str "Intro (https://a.com) ok[https://b.com) x### (https://c.com)")) =
      .ok [⟨1, str "https://a.com", some (str "Answers"), str "AnswersIntro"⟩,
           ⟨2, str "https://c.com", none, str "undefined"⟩] := by
  decide

/-- C6 (amended): entries without a nonempty URL are excluded before the
top-K cut (the snippet is not inspected); at most `TOP_K = 3` references
survive, numbered 1-based in rank order; when zero usable entries remain the
stage fails with an `EvalError`, which is retried under the same bounded
backoff policy as the completion client (at most 3 attempts, delays
`[1500, 3000]` ms). -/
theorem search_filter_topk_retry :
    (∀ (content : JStr) (hits : List Hit), parseSearx content = .ok hits →
      hits.length ≤ TOP_K ∧ ∀ h ∈ hits, ∃ u, h.url = some u ∧ u ≠ []) ∧
    (∀ (content : JStr) (refs : List Reference),
      searxngAttempt (.ok content) = .ok refs →
      refs.length ≤ TOP_K ∧ refs ≠ [] ∧
        ∀ (i : Nat) (hi : i < refs.length), (refs.get ⟨i, hi⟩).position = i + 1) ∧
    (∀ content : JStr, parseSearx content = .ok [] →
      searxngAttempt (.ok content) = .error .evalError) ∧
    (∀ (fetchO : Nat -> SearxFetch) (refs : List Reference),
      searxngAttempt (fetchO 0) = .error .evalError →
      searxngAttempt (fetchO 1) = .error .evalError →
      searxngAttempt (fetchO 2) = .ok refs →
      searxngRetry fetchO = (.ok refs, 3, [1500, 3000])) ∧
    (∀ (fetchO : Nat -> SearxFetch) (e0 e1 e2 : JsErr),
      searxngAttempt (fetchO 0) = .error e0 → retryableName e0 = true →
      searxngAttempt (fetchO 1) = .error e1 → retryableName e1 = true →
      searxngAttempt (fetchO 2) = .error e2 →
      searxngRetry fetchO = (.error e2, 3, [1500, 3000])) := by
  refine ⟨?_, ?_, ?_, ?_, ?_⟩
  · intro content hits hok
    unfold parseSearx at hok
    cases ha : answerFn content with
    | error e => rw [ha] at hok; exact absurd hok (by simp)
    | ok a =>
      rw [ha] at hok
      simp only [Except.ok.injEq] at hok
      subst hok
      constructor
      · exact le_trans (List.length_take_le _ _) (le_refl _)
      · intro h hm
        have hm' := List.mem_of_mem_take hm
        have := List.of_mem_filter hm'
        cases hu : h.url with
        | none => rw [hu] at this; simp at this
        | some u =>
          rw [hu] at this
          refine ⟨u, rfl, ?_⟩
          simpa using this
  · intro content refs hok
    simp only [searxngAttempt] at hok
    cases hp : parseSearx content with
    | error e => rw [hp] at hok; exact absurd hok (by simp)
    | ok blocks =>
      rw [hp] at hok
      simp only [] at hok
      by_cases hb : blocks.length > 0
      · rw [if_pos hb] at hok
        simp only [Except.ok.injEq] at hok
        subst hok
        refine ⟨?_, ?_, ?_⟩
        · simp [List.length_take]
        · have : (blocks.take TOP_K).length > 0 := by
            rw [List.length_take]
            simp [TOP_K]
            omega
          intro hnil
          rw [List.map_eq_nil_iff, List.enum_eq_nil] at hnil
          rw [hnil] at this
          simp at this
        · intro i hi
          rw [List.get_eq_getElem, List.getElem_map]
          have := List.getElem_enum (blocks.take TOP_K) i (by simpa using hi)
          rw [this]
      · rw [if_neg hb] at hok
        exact absurd hok (by simp)
  · intro content hnil
    simp only [searxngAttempt]
    rw [hnil]
    simp
  · intro fetchO refs h0 h1 h2
    simp [searxngRetry, searxngGo, MAX_RETRY_ATTEMPT, retryableName, h0, h1, h2]
  · intro fetchO e0 e1 e2 h0 hr0 h1 hr1 h2
    simp [searxngRetry, searxngGo, MAX_RETRY_ATTEMPT, h0, hr0, h1, hr1, h2]

/-- Witness for `search_filter_topk_retry` at concrete inputs. -/
theorem search_filter_topk_retry_witness :
    ([(⟨some (str "Answers"), some (str "https://a.com"), str "Result"⟩ : Hit)].length ≤ TOP_K ∧
      ∀ h ∈ [(⟨some (str "Answers"), some (str "https://a.com"), str "Result"⟩ : Hit)],
        ∃ u, h.url = some u ∧ u ≠ []) ∧
    searxngRetry (fun n => if n < 2 then SearxFetch.httpError
        else SearxFetch.ok (str "Result (https://a.com) found")) =
      (.ok [⟨1, str "https://a.com", some (str "Answers"), str "AnswersResult"⟩], 3, [1500, 3000]) ∧
    searxngRetry (fun _ => SearxFetch.httpError) = (.error .evalError, 3, [1500, 3000]) := by
  refine ⟨?_, ?_, ?_⟩
  · exact search_filter_topk_retry.1 (str "Result (https://a.com) found")
      [⟨some (str "Answers"), some (str "https://a.com"), str "Result"⟩] (by decide)
  · exact search_filter_topk_retry.2.2.2.1 _ _ (by decide) (by decide) (by decide)
  · exact search_filter_topk_retry.2.2.2.2 _ .evalError .evalError .evalError
      (by decide) rfl (by decide) rfl (by decide)

/-! ## Theorems: codec round-trip machinery (C4) -/

theorem occursAt_fit_left {pat a b : JStr} {q : Nat}
    (hfit : q + pat.length ≤ a.length)
    (h : occursAtB pat (a ++ b) q = true) : occursAtB pat a q = true := by
  rw [occursAtB_iff] at h ⊢
  have hq : q ≤ a.length := by omega
  rw [List.drop_append_eq_append_drop, Nat.sub_eq_zero_of_le hq, List.drop_zero] at h
  exact (List.isPrefix_append_of_length (by rw [List.length_drop]; omega)).mp h

theorem occursAt_char {pat s : JStr} {q k : Nat} (h : occursAtB pat s q = true)
    (hk : k < pat.length) : s[q + k]? = pat[k]? := by
  rw [occursAtB_iff] at h
  have h2 := isPrefix_getElem? h hk
  rwa [List.getElem?_drop] at h2

theorem occursAt_le_length {pat s : JStr} {q : Nat} (hpat : pat ≠ [])
    (h : occursAtB pat s q = true) : q + pat.length ≤ s.length := by
  by_cases hq : q ≤ s.length
  · rw [occursAtB_iff] at h
    have h2 := h.length_le
    rw [List.length_drop] at h2
    omega
  · rw [occursAtB_beyond hpat (by omega)] at h
    exact absurd h (by simp)

theorem mem_of_getElem?_some {α : Type} {l : List α} {n : Nat} {x : α}
    (h : l[n]? = some x) : x ∈ l := by
  obtain ⟨hlt, hget⟩ := List.getElem?_eq_some_iff.mp h
  exact hget ▸ List.getElem_mem hlt

theorem occursAt_line {Km K v : JStr} {j : Nat}
    (hKm : Km ≠ []) (hKmc : ':' ∉ Km) (hKms : ' ' ∉ Km)
    (hKc : ':' ∉ K)
    (hv : ∀ q, occursAtB (Km ++ str ":") v q = false)
    (h : occursAtB (Km ++ str ":") (K ++ ':' :: ' ' :: v) j = true) :
    j + Km.length = K.length ∧ K.drop j = Km := by
  have hM : (Km ++ str ":") = Km ++ [':'] := rfl
  have hMne : (Km ++ str ":") ≠ [] := by simp [str]
  have hMlen : (Km ++ str ":").length = Km.length + 1 := by simp [str]
  have hlen := occursAt_le_length hMne h
  by_cases h1 : j + (Km ++ str ":").length ≤ K.length
  · exfalso
    have hin : occursAtB (Km ++ str ":") K j = true := by
      have hsh : K ++ ':' :: ' ' :: v = K ++ (':' :: ' ' :: v) := rfl
      exact occursAt_fit_left h1 (hsh ▸ h)
    have hchar := occursAt_char hin (show Km.length < (Km ++ str ":").length by omega)
    have hMk : (Km ++ str ":")[Km.length]? = some ':' := by
      rw [hM, List.getElem?_append_right (by omega)]
      simp
    rw [hMk] at hchar
    exact hKc (mem_of_getElem?_some hchar)
  · by_cases h2 : j + (Km ++ str ":").length = K.length + 1
    · have hjK : j ≤ K.length := by omega
      have hfit : occursAtB (Km ++ str ":") (K ++ [':']) j = true := by
        have hsh : K ++ ':' :: ' ' :: v = (K ++ [':']) ++ (' ' :: v) := by simp
        have hb : j + (Km ++ str ":").length ≤ (K ++ [':']).length := by
          have h2x := h2
          rw [hMlen] at h2x
          rw [hMlen]
          simp
          omega
        exact occursAt_fit_left hb (hsh ▸ h)
      rw [occursAtB_iff] at hfit
      have hdropK : (K ++ [':']).drop j = K.drop j ++ [':'] := by
        rw [List.drop_append_eq_append_drop, Nat.sub_eq_zero_of_le hjK, List.drop_zero]
      rw [hdropK] at hfit
      have heqlen : (Km ++ str ":").length = (K.drop j ++ [':']).length := by
        simp [str]
        omega
      have heq := hfit.eq_of_length heqlen
      rw [hM] at heq
      have hcan := List.append_cancel_right heq
      constructor
      · omega
      · exact hcan.symm
    · have h3 : j + (Km ++ str ":").length > K.length + 1 := by omega
      by_cases hj : j ≤ K.length + 1
      · exfalso
        have hk : K.length + 1 - j < (Km ++ str ":").length := by omega
        have hchar := occursAt_char h hk
        have hline : (K ++ ':' :: ' ' :: v)[j + (K.length + 1 - j)]? = some ' ' := by
          have : j + (K.length + 1 - j) = K.length + 1 := by omega
          rw [this, List.getElem?_append_right (by omega)]
          have hone : K.length + 1 - K.length = 1 := by omega
          rw [hone]
          simp
        rw [hline] at hchar
        have hsp : ' ' ∈ Km ++ str ":" := mem_of_getElem?_some hchar.symm
        rcases List.mem_append.mp hsp with hx | hx
        · exact hKms hx
        · simp [str] at hx
      · exfalso
        have hj2 : j ≥ K.length + 2 := by omega
        have hv' : occursAtB (Km ++ str ":") v (j - K.length - 2) = true := by
          rw [occursAtB_iff] at h ⊢
          have hsh : K ++ ':' :: ' ' :: v = (K ++ [':', ' ']) ++ v := by simp
          have hq : j = (K ++ [':', ' ']).length + (j - K.length - 2) := by
            simp
            omega
          rw [hsh, hq, List.drop_append] at h
          exact h
        rw [hv (j - K.length - 2)] at hv'
        exact absurd hv' (by simp)

theorem noOccur_block {M A L : JStr} (hM : M ≠ []) (hnl : '\n' ∉ M)
    (hA : A = [] ∨ A.getLast? = some '\n')
    (hAocc : ∀ q, occursAtB M A q = false)
    (hLocc : ∀ k, occursAtB M L k = false) :
    ∀ q, occursAtB M (A ++ (L ++ str "\n")) q = false := by
  intro q
  by_cases hocc : occursAtB M (A ++ (L ++ str "\n")) q = true
  · exfalso
    by_cases h1 : q + M.length ≤ A.length
    · have := occursAt_fit_left h1 hocc
      rw [hAocc q] at this
      exact absurd this (by simp)
    · by_cases h2 : A.length ≤ q
      · have hin : occursAtB M (L ++ str "\n") (q - A.length) = true := by
          rw [occursAtB_iff] at hocc ⊢
          have hq : q = A.length + (q - A.length) := by omega
          rw [hq, List.drop_append] at hocc
          exact hocc
        have hsh : L ++ str "\n" = L ++ '\n' :: ([] : JStr) := rfl
        rw [hsh] at hin
        rcases occursAt_append_single hnl hin with hx | ⟨k, _, hk⟩
        · rw [hLocc _] at hx
          exact absurd hx (by simp)
        · rw [occursAtB_beyond hM (by simp)] at hk
          exact absurd hk (by simp)
      · have hq1 : q < A.length := by omega
        have hk : A.length - 1 - q < M.length := by omega
        have hchar := occursAt_char hocc hk
        have hidx : q + (A.length - 1 - q) = A.length - 1 := by omega
        rw [hidx] at hchar
        have hAlast : (A ++ (L ++ str "\n"))[A.length - 1]? = some '\n' := by
          rw [List.getElem?_append_left (by omega)]
          rcases hA with h | h
          · subst h
            simp at hq1
          · rw [List.getLast?_eq_getElem?] at h
            exact h
        rw [hAlast] at hchar
        exact hnl (mem_of_getElem?_some hchar.symm)
  · simpa using hocc

theorem strOfR_shape (p : JStr × JStr) (rqs : List (JStr × JStr)) :
    strOfR (p :: rqs) = strOfR rqs ++ ((p.1 ++ str ": " ++ p.2) ++ str "\n") := by
  cases p
  simp [strOfR]

theorem strOfR_last : ∀ rps : List (JStr × JStr),
    strOfR rps = [] ∨ (strOfR rps).getLast? = some '\n' := by
  intro rps
  cases rps with
  | nil => exact Or.inl rfl
  | cons p rqs =>
    right
    rw [strOfR_shape]
    have hsh : strOfR rqs ++ ((p.1 ++ str ": " ++ p.2) ++ str "\n") =
        (strOfR rqs ++ (p.1 ++ str ": " ++ p.2)) ++ ['\n'] := by
      simp [str]
    rw [hsh, List.getLast?_concat]

theorem line_assoc (K v : JStr) : K ++ str ": " ++ v = K ++ ':' :: ' ' :: v := by
  simp [str]

/-- No occurrence of the marker of key `Km` in the line of a different,
non-suffix key. -/
theorem line_noOccur {Km K v : JStr}
    (hKm : Km ≠ []) (hKmc : ':' ∉ Km) (hKms : ' ' ∉ Km)
    (hKc : ':' ∉ K) (hne : Km ≠ K) (hsuf : ¬ Km <:+ K)
    (hv : ∀ q, occursAtB (Km ++ str ":") v q = false) :
    ∀ k, occursAtB (Km ++ str ":") (K ++ str ": " ++ v) k = false := by
  intro k
  by_cases hocc : occursAtB (Km ++ str ":") (K ++ str ": " ++ v) k = true
  · exfalso
    rw [line_assoc] at hocc
    obtain ⟨hlen, hdrop⟩ := occursAt_line hKm hKmc hKms hKc hv hocc
    by_cases hk0 : k = 0
    · subst hk0
      rw [List.drop_zero] at hdrop
      exact hne hdrop.symm
    · exact hsuf ⟨K.take k, by rw [← hdrop]; exact List.take_append_drop k K⟩
  · simpa using hocc

theorem jsTrimStart_space (x : JStr) : jsTrimStart (' ' :: x) = jsTrimStart x := by
  simp [jsTrimStart, List.dropWhile, jsWhitespace]

theorem jsTrimEnd_nl (x : JStr) : jsTrimEnd (x ++ ['\n']) = jsTrimEnd x := by
  simp [jsTrimEnd, List.dropWhile, jsWhitespace]

theorem jsTrimStart_eq_self {v : JStr} (hv : jsTrim v = v) : jsTrimStart v = v := by
  have hsuf : jsTrimStart v <:+ v := List.dropWhile_suffix _
  apply hsuf.eq_of_length
  have h1 : (jsTrimEnd (jsTrimStart v)).length ≤ (jsTrimStart v).length := by
    unfold jsTrimEnd
    have hsuf2 : List.dropWhile jsWhitespace ((jsTrimStart v).reverse) <:+
        (jsTrimStart v).reverse := List.dropWhile_suffix _
    have hs3 := hsuf2.length_le
    simpa using hs3
  have h2 : (jsTrimStart v).length ≤ v.length := hsuf.length_le
  unfold jsTrim at hv
  have h3 : (jsTrimEnd (jsTrimStart v)).length = v.length := by rw [hv]
  omega

theorem jsTrimEnd_eq_self {v : JStr} (hv : jsTrim v = v) : jsTrimEnd v = v := by
  have h1 := jsTrimStart_eq_self hv
  unfold jsTrim at hv
  rw [h1] at hv
  exact hv

theorem jsTrimStart_append_self {v x : JStr} (hne : v ≠ []) (hts : jsTrimStart v = v) :
    jsTrimStart (v ++ x) = v ++ x := by
  cases v with
  | nil => exact absurd rfl hne
  | cons c v' =>
    have hws : jsWhitespace c = false := by
      by_cases hw : jsWhitespace c = true
      · unfold jsTrimStart at hts
        rw [List.dropWhile_cons, if_pos hw] at hts
        have hsuf2 : List.dropWhile jsWhitespace v' <:+ v' := List.dropWhile_suffix _
        have hs3 := hsuf2.length_le
        rw [hts] at hs3
        simp at hs3
      · simpa using hw
    unfold jsTrimStart
    rw [List.cons_append, List.dropWhile_cons, if_neg (by simp [hws])]

theorem jsTrim_val {v : JStr} (hne : v ≠ []) (hv : jsTrim v = v) :
    jsTrim (' ' :: (v ++ ['\n'])) = v := by
  unfold jsTrim
  rw [jsTrimStart_space]
  rw [jsTrimStart_append_self hne (jsTrimStart_eq_self hv)]
  rw [jsTrimEnd_nl]
  exact jsTrimEnd_eq_self hv

theorem splitOnCharAux_no_sep {sep : Char} : ∀ (l acc : JStr), sep ∉ l →
    splitOnCharAux sep l acc = [acc.reverse ++ l] := by
  intro l
  induction l with
  | nil => intro acc _; simp [splitOnCharAux]
  | cons c l ih =>
    intro acc hmem
    have hc : c ≠ sep := fun h => hmem (h ▸ List.mem_cons_self c l)
    unfold splitOnCharAux
    rw [if_neg hc, ih (c :: acc) (fun h => hmem (List.mem_cons_of_mem c h))]
    simp

theorem splitOnChar_no_sep {sep : Char} {l : JStr} (h : sep ∉ l) :
    splitOnChar sep l = [l] := by
  unfold splitOnChar
  rw [splitOnCharAux_no_sep l [] h]
  rfl

theorem jsIndexOf_zero {pat s : JStr} (h : occursAtB pat s 0 = true) :
    jsIndexOf pat s = some 0 := by
  unfold jsIndexOf
  cases hl : s.length with
  | zero => unfold jsIndexOfAux; rw [if_pos h]
  | succ n => unfold jsIndexOfAux; rw [if_pos h]

theorem jsLastIndexOf_nil {pat : JStr} (h : pat ≠ []) : jsLastIndexOf pat [] = none := by
  apply jsLastIndexOfAux_eq_none
  intro q _
  exact occursAtB_beyond h (by simp)

/-- No occurrence of the marker of `Km` anywhere in `strOfR rps`, provided
`Km` is not a key of `rps` and the usual key/value hygiene holds. -/
theorem noOccur_strOfR {Km : JStr}
    (hKm : Km ≠ []) (hKmc : ':' ∉ Km) (hKms : ' ' ∉ Km) (hKmn : '\n' ∉ Km) :
    ∀ rps : List (JStr × JStr),
    (∀ p ∈ rps, (':' ∉ p.1) ∧ Km ≠ p.1 ∧ ¬ Km <:+ p.1 ∧
      ∀ q, occursAtB (Km ++ str ":") p.2 q = false) →
    ∀ q, occursAtB (Km ++ str ":") (strOfR rps) q = false := by
  intro rps
  induction rps with
  | nil =>
    intro _ q
    exact occursAtB_beyond (by simp [str]) (by simp [strOfR])
  | cons p rqs ih =>
    intro hps q
    obtain ⟨hKc, hne, hsuf, hval⟩ := hps p (List.mem_cons_self p rqs)
    rw [strOfR_shape]
    have hMnl : '\n' ∉ Km ++ str ":" := by
      intro hm
      rcases List.mem_append.mp hm with hx | hx
      · exact hKmn hx
      · simp [str] at hx
    exact noOccur_block (by simp [str]) hMnl (strOfR_last rqs)
      (ih (fun p' hp' => hps p' (List.mem_cons_of_mem p hp')))
      (line_noOccur hKm hKmc hKms hKc hne hsuf hval) q

theorem lastIndexOf_strOfR_cons {K v : JStr} (rqs : List (JStr × JStr))
    (hK : K ≠ []) (hKc : ':' ∉ K) (hKs : ' ' ∉ K) (hKn : '\n' ∉ K)
    (hv : ∀ q, occursAtB (K ++ str ":") v q = false) :
    jsLastIndexOf (K ++ str ":") (strOfR ((K, v) :: rqs)) = some (strOfR rqs).length := by
  rw [strOfR_shape]
  apply jsLastIndexOf_eq_some (by simp [str])
  · rw [occursAtB_iff, List.drop_left]
    exact ⟨' ' :: (v ++ str "\n"), by simp [str]⟩
  · intro q hq
    by_cases hocc : occursAtB (K ++ str ":")
        (strOfR rqs ++ (K ++ str ": " ++ v ++ str "\n")) q = true
    · exfalso
      have hin : occursAtB (K ++ str ":") (K ++ str ": " ++ v ++ str "\n")
          (q - (strOfR rqs).length) = true := by
        rw [occursAtB_iff] at hocc ⊢
        have hqe : q = (strOfR rqs).length + (q - (strOfR rqs).length) := by omega
        rw [hqe, List.drop_append] at hocc
        exact hocc
      have hsh : K ++ str ": " ++ v ++ str "\n" =
          (K ++ str ": " ++ v) ++ '\n' :: ([] : JStr) := by simp [str]
      rw [hsh] at hin
      have hMnl : '\n' ∉ K ++ str ":" := by
        intro hm
        rcases List.mem_append.mp hm with hx | hx
        · exact hKn hx
        · simp [str] at hx
      rcases occursAt_append_single hMnl hin with hx | ⟨kk, _, hkk⟩
      · rw [line_assoc] at hx
        obtain ⟨hlen, _⟩ := occursAt_line hK hKc hKs hKc hv hx
        omega
      · rw [occursAtB_beyond (by simp [str]) (by simp)] at hkk
        exact absurd hkk (by simp)
    · simpa using hocc

theorem decons_fold : ∀ (keysL : List JStr) (rps : List (JStr × JStr)) (acc : Parts),
    keysL.Nodup →
    (∀ K ∈ keysL, K ≠ [] ∧ (':' ∉ K) ∧ (' ' ∉ K) ∧ ('\n' ∉ K)) →
    (∀ K ∈ keysL, ∀ KK ∈ keysL, K ≠ KK → ¬ K <:+ KK) →
    List.Sublist (rps.map Prod.fst) keysL →
    (∀ p ∈ rps, p.2 ≠ [] ∧ jsTrim p.2 = p.2 ∧ ('\n' ∉ p.2) ∧
      ∀ K ∈ keysL, ∀ q, occursAtB (K ++ str ":") p.2 q = false) →
    (keysL.foldl deconsStep (strOfR rps, acc)).2 = applyPairs rps acc := by
  intro keysL
  induction keysL with
  | nil =>
    intro rps acc _ _ _ hsub _
    have h0 : rps = [] := List.map_eq_nil_iff.mp (List.sublist_nil.mp hsub)
    subst h0
    rfl
  | cons k rest ih =>
    intro rps acc hnd hkw hnos hsub hvals
    rw [List.foldl_cons]
    obtain ⟨hk_ne, hk_c, hk_s, hk_n⟩ := hkw k (List.mem_cons_self k rest)
    cases rps with
    | nil =>
      have hstep : deconsStep (strOfR [], acc) k = (strOfR [], acc) := by
        unfold deconsStep
        have : strOfR [] = ([] : JStr) := rfl
        rw [this, jsLastIndexOf_nil (by simp [str])]
      rw [hstep]
      exact ih [] acc (List.Nodup.of_cons hnd)
        (fun K hK => hkw K (List.mem_cons_of_mem k hK))
        (fun K hK KK hKK => hnos K (List.mem_cons_of_mem k hK) KK (List.mem_cons_of_mem k hKK))
        (by simp) (by simp)
    | cons p rqs =>
      obtain ⟨K0, v0⟩ := p
      obtain ⟨hvne, hvtrim, hvnl, hvmk⟩ :=
        hvals (K0, v0) (List.mem_cons_self _ rqs)
      by_cases hpk : K0 = k
      · subst hpk
        have hvK : ∀ q, occursAtB (K0 ++ str ":") v0 q = false :=
          hvmk K0 (List.mem_cons_self K0 rest)
        have hlast := lastIndexOf_strOfR_cons rqs hk_ne hk_c hk_s hk_n hvK
        have hwhole : strOfR ((K0, v0) :: rqs) =
            (strOfR rqs ++ K0 ++ [':']) ++ (' ' :: (v0 ++ ['\n'])) := by
          rw [strOfR_shape]
          simp [str]
        have hstep : deconsStep (strOfR ((K0, v0) :: rqs), acc) K0 =
            (strOfR rqs, setPart acc (K0.map lowerChar) v0) := by
          unfold deconsStep
          rw [hlast]
          have hdrop : (strOfR ((K0, v0) :: rqs)).drop
              ((strOfR rqs).length + K0.length + 1) = ' ' :: (v0 ++ ['\n']) := by
            rw [hwhole]
            exact List.drop_left' (by simp; omega)
          have htake : (strOfR ((K0, v0) :: rqs)).take (strOfR rqs).length = strOfR rqs := by
            rw [strOfR_shape]
            have : strOfR rqs ++ (K0 ++ str ": " ++ v0 ++ str "\n") =
                strOfR rqs ++ ((K0 ++ str ": " ++ v0 ++ str "\n")) := by simp
            exact List.take_left' rfl
          simp only []
          rw [hdrop, jsTrim_val hvne hvtrim, splitOnChar_no_sep hvnl, htake]
          rfl
        rw [hstep]
        have hsub' : List.Sublist (rqs.map Prod.fst) rest := by
          rw [List.map_cons] at hsub
          cases hsub with
          | cons _ h => exact List.sublist_of_cons_sublist h
          | cons₂ _ h => exact h
        rw [ih rqs (setPart acc (K0.map lowerChar) v0) (List.Nodup.of_cons hnd)
          (fun K hK => hkw K (List.mem_cons_of_mem K0 hK))
          (fun K hK KK hKK => hnos K (List.mem_cons_of_mem K0 hK) KK (List.mem_cons_of_mem K0 hKK))
          hsub'
          (fun p' hp' => ⟨(hvals p' (List.mem_cons_of_mem _ hp')).1,
            (hvals p' (List.mem_cons_of_mem _ hp')).2.1,
            (hvals p' (List.mem_cons_of_mem _ hp')).2.2.1,
            fun K hK => (hvals p' (List.mem_cons_of_mem _ hp')).2.2.2 K (List.mem_cons_of_mem K0 hK)⟩)]
        rfl
      · have hknotin : k ∉ rest := (List.nodup_cons.mp hnd).1
        have hsub' : List.Sublist (((K0, v0) :: rqs).map Prod.fst) rest := by
          rw [List.map_cons] at hsub ⊢
          cases hsub with
          | cons _ h => exact h
          | cons₂ _ h => exact absurd rfl hpk
        have hnone : jsLastIndexOf (k ++ str ":") (strOfR ((K0, v0) :: rqs)) = none := by
          apply jsLastIndexOfAux_eq_none
          intro q _
          apply noOccur_strOfR hk_ne hk_c hk_s hk_n ((K0, v0) :: rqs)
          intro p' hp'
          have hmem : p'.1 ∈ rest := by
            have : p'.1 ∈ ((K0, v0) :: rqs).map Prod.fst := List.mem_map_of_mem Prod.fst hp'
            exact hsub'.subset this
          obtain ⟨_, _, _, hmk⟩ := hvals p' hp'
          refine ⟨(hkw p'.1 (List.mem_cons_of_mem k hmem)).2.1, ?_, ?_, ?_⟩
          · intro he
            exact hknotin (he ▸ hmem)
          · exact hnos k (List.mem_cons_self k rest) p'.1 (List.mem_cons_of_mem k hmem)
              (fun he => hknotin (he ▸ hmem))
          · exact hmk k (List.mem_cons_self k rest)
        have hstep : deconsStep (strOfR ((K0, v0) :: rqs), acc) k =
            (strOfR ((K0, v0) :: rqs), acc) := by
          unfold deconsStep
          rw [hnone]
        rw [hstep]
        exact ih ((K0, v0) :: rqs) acc (List.Nodup.of_cons hnd)
          (fun K hK => hkw K (List.mem_cons_of_mem k hK))
          (fun K hK KK hKK => hnos K (List.mem_cons_of_mem k hK) KK (List.mem_cons_of_mem k hKK))
          hsub'
          (fun p' hp' => ⟨(hvals p' hp').1, (hvals p' hp').2.1, (hvals p' hp').2.2.1,
            fun K hK => (hvals p' hp').2.2.2 K (List.mem_cons_of_mem k hK)⟩)

/-! ## Theorems: codec round-trip (C4) -/

theorem joinSep_cons_ne (sep x : JStr) {l : List JStr} (h : l ≠ []) :
    joinSep sep (x :: l) = x ++ sep ++ joinSep sep l := by
  cases l with
  | nil => exact absurd rfl h
  | cons y tl => rfl

theorem blocksOf_cons (p : JStr × JStr) (ps : List (JStr × JStr)) :
    blocksOf (p :: ps) = (p.1 ++ str ": " ++ p.2 ++ str "\n") ++ blocksOf ps := by
  simp [blocksOf]

theorem textOf_append_last (K v : JStr) :
    ∀ ps : List (JStr × JStr),
    textOf (ps ++ [(K, v)]) = blocksOf ps ++ (K ++ str ": " ++ v) := by
  intro ps
  induction ps with
  | nil => simp [textOf, blocksOf, joinSep]
  | cons x tl ih =>
    rw [List.cons_append]
    unfold textOf
    rw [List.map_cons, joinSep_cons_ne _ _ (by simp)]
    unfold textOf at ih
    rw [ih, blocksOf_cons]
    simp [str]

theorem strOfR_append_last (K v : JStr) :
    ∀ xs : List (JStr × JStr),
    strOfR (xs ++ [(K, v)]) = (K ++ str ": " ++ v ++ str "\n") ++ strOfR xs := by
  intro xs
  induction xs with
  | nil => simp [strOfR]
  | cons x tl ih =>
    rw [List.cons_append, strOfR_shape, ih, strOfR_shape]
    simp [str]

theorem strOfR_reverse_eq : ∀ ps : List (JStr × JStr), strOfR ps.reverse = blocksOf ps := by
  intro ps
  induction ps with
  | nil => rfl
  | cons p tl ih =>
    obtain ⟨K, v⟩ := p
    rw [List.reverse_cons, strOfR_append_last, ih, blocksOf_cons]

theorem construct_eq_textOf (R : Parts) :
    construct R = textOf (pairsOf R PREDEFINED_KEYS) := by
  unfold construct textOf pairsOf
  rw [List.map_map]
  rfl

theorem pairsOf_append (R : Parts) (a b : List JStr) :
    pairsOf R (a ++ b) = pairsOf R a ++ pairsOf R b := by
  unfold pairsOf
  rw [List.filter_append, List.map_append]

theorem predefined_split : PREDEFINED_KEYS = PRE_KEYS ++ [str "TOPIC"] := by decide

theorem getPart_topic (R : Parts) : getPart R (str "topic") = R.topic := rfl

theorem truthy_some_of_ne {v : JStr} (h : v ≠ []) : truthy (some v) = true := by
  cases v with
  | nil => exact absurd rfl h
  | cons c tl => rfl

theorem pairsOf_topic {R : Parts} {t : JStr} (ht : R.topic = some t) (hne : t ≠ []) :
    pairsOf R [str "TOPIC"] = [(str "TOPIC", t)] := by
  unfold pairsOf
  have hl : (str "TOPIC").map lowerChar = str "topic" := by decide
  have hg : getPart R ((str "TOPIC").map lowerChar) = some t := by
    rw [hl, getPart_topic, ht]
  simp [List.filter_cons, hg, truthy_some_of_ne hne]

theorem pairsOf_mem {R : Parts} {keysL : List JStr} {p : JStr × JStr}
    (hp : p ∈ pairsOf R keysL) :
    p.1 ∈ keysL ∧ getPart R (p.1.map lowerChar) = some p.2 := by
  unfold pairsOf at hp
  obtain ⟨K, hKmem, rfl⟩ := List.mem_map.mp hp
  have hKfil := List.mem_filter.mp hKmem
  refine ⟨hKfil.1, ?_⟩
  cases hg : getPart R (K.map lowerChar) with
  | none =>
    rw [hg] at hKfil
    exact absurd hKfil.2 (by simp [truthy])
  | some v => simp [hg]

theorem pairsOf_fst_sublist (R : Parts) (keysL : List JStr) :
    List.Sublist ((pairsOf R keysL).map Prod.fst) keysL := by
  unfold pairsOf
  rw [List.map_map]
  have he : (Prod.fst ∘ fun K => (K, (getPart R (K.map lowerChar)).getD [])) =
      fun K : JStr => K := rfl
  rw [he, List.map_id']
  exact List.filter_sublist _

theorem GoodParts_getPart {R : Parts} (h : GoodParts R) :
    ∀ K ∈ PREDEFINED_KEYS, optGood (getPart R (K.map lowerChar)) := by
  intro K hK
  obtain ⟨h1, h2, h3, h4, h5, h6, h7⟩ := h
  simp only [PREDEFINED_KEYS] at hK
  fin_cases hK
  · exact h1
  · exact h2
  · exact h3
  · exact h4
  · exact h5
  · exact h6
  · exact h7

theorem jsTrim_space_cons (t : JStr) : jsTrim (' ' :: t) = jsTrim t := by
  unfold jsTrim
  rw [jsTrimStart_space]

theorem lastIndexOf_topic_anchor {K t : JStr} (rps : List (JStr × JStr))
    (hK : K ≠ []) (hKc : ':' ∉ K) (hKs : ' ' ∉ K)
    (ht : ∀ q, occursAtB (K ++ str ":") t q = false) :
    jsLastIndexOf (K ++ str ":") (strOfR rps ++ (K ++ str ": " ++ t)) =
      some (strOfR rps).length := by
  apply jsLastIndexOf_eq_some (by simp [str])
  · rw [occursAtB_iff, List.drop_left]
    exact ⟨' ' :: t, by simp [str]⟩
  · intro q hq
    by_cases hocc : occursAtB (K ++ str ":") (strOfR rps ++ (K ++ str ": " ++ t)) q = true
    · exfalso
      have hin : occursAtB (K ++ str ":") (K ++ str ": " ++ t)
          (q - (strOfR rps).length) = true := by
        rw [occursAtB_iff] at hocc ⊢
        have hqe : q = (strOfR rps).length + (q - (strOfR rps).length) := by omega
        rw [hqe, List.drop_append] at hocc
        exact hocc
      rw [line_assoc] at hin
      obtain ⟨hlen, _⟩ := occursAt_line hK hKc hKs hKc ht hin
      omega
    · simpa using hocc

theorem getPart_inq (p : Parts) : getPart p ((str "INQUIRY").map lowerChar) = p.inquiry := rfl

theorem getPart_tool (p : Parts) : getPart p ((str "TOOL").map lowerChar) = p.tool := rfl

theorem getPart_lang (p : Parts) : getPart p ((str "LANGUAGE").map lowerChar) = p.language := rfl

theorem getPart_tho (p : Parts) : getPart p ((str "THOUGHT").map lowerChar) = p.thought := rfl

theorem getPart_key (p : Parts) : getPart p ((str "KEYPHRASES").map lowerChar) = p.keyphrases := rfl

theorem getPart_obs (p : Parts) : getPart p ((str "OBSERVATION").map lowerChar) = p.observation := rfl

theorem setPart_inq (p : Parts) (v : JStr) :
    setPart p ((str "INQUIRY").map lowerChar) v = { p with inquiry := some v } := rfl

theorem setPart_tool (p : Parts) (v : JStr) :
    setPart p ((str "TOOL").map lowerChar) v = { p with tool := some v } := rfl

theorem setPart_lang (p : Parts) (v : JStr) :
    setPart p ((str "LANGUAGE").map lowerChar) v = { p with language := some v } := rfl

theorem setPart_tho (p : Parts) (v : JStr) :
    setPart p ((str "THOUGHT").map lowerChar) v = { p with thought := some v } := rfl

theorem setPart_key (p : Parts) (v : JStr) :
    setPart p ((str "KEYPHRASES").map lowerChar) v = { p with keyphrases := some v } := rfl

theorem setPart_obs (p : Parts) (v : JStr) :
    setPart p ((str "OBSERVATION").map lowerChar) v = { p with observation := some v } := rfl

/-- Replaying the `setPart` writes of the nonempty pre-`TOPIC` fields over a
record holding only the topic restores the full record. -/
theorem applyPairs_reassemble (f1 f2 f3 f4 f5 f6 : Option JStr) (t : JStr)
    (h1 : optGood f1) (h2 : optGood f2) (h3 : optGood f3)
    (h4 : optGood f4) (h5 : optGood f5) (h6 : optGood f6) :
    applyPairs (pairsOf ⟨f1, f2, f3, f4, f5, f6, some t⟩ PRE_KEYS).reverse
      (setPart emptyParts (str "topic") t) = ⟨f1, f2, f3, f4, f5, f6, some t⟩ := by
  have hsp : setPart emptyParts (str "topic") t =
      ⟨none, none, none, none, none, none, some t⟩ := rfl
  rw [hsp]
  rcases f1 with _ | v1 <;> rcases f2 with _ | v2 <;> rcases f3 with _ | v3 <;>
    rcases f4 with _ | v4 <;> rcases f5 with _ | v5 <;> rcases f6 with _ | v6 <;>
    simp_all [optGood, goodV, pairsOf, PRE_KEYS, applyPairs,
      getPart_inq, getPart_tool, getPart_lang, getPart_tho, getPart_key, getPart_obs,
      setPart_inq, setPart_tool, setPart_lang, setPart_tho, setPart_key, setPart_obs,
      truthy, List.filter_cons]

/-- Decoding an encoded hygienic record with a present topic restores the
record: the anchor is found at the start of the `TOPIC` line, the topic value
is recovered by `replaceFirst`/`trim`, and the right-to-left key fold
recovers every remaining field. -/
theorem deconstruct_construct {R : Parts} {t : JStr}
    (hg : GoodParts R) (ht : R.topic = some t) :
    deconstruct (construct R) = R := by
  have htop : optGood R.topic := hg.2.2.2.2.2.2
  rw [ht] at htop
  have htopg : goodV t := htop
  unfold goodV at htopg
  obtain ⟨htne, httrim, htnl, htmk⟩ := htopg
  have htext : construct R =
      strOfR (pairsOf R PRE_KEYS).reverse ++ (str "TOPIC" ++ str ": " ++ t) := by
    rw [construct_eq_textOf, predefined_split, pairsOf_append, pairsOf_topic ht htne,
      textOf_append_last, ← strOfR_reverse_eq]
  have hgoodv : ∀ p ∈ pairsOf R PRE_KEYS, goodV p.2 := by
    intro p hp
    obtain ⟨hk, hgp⟩ := pairsOf_mem hp
    have hkp : p.1 ∈ PREDEFINED_KEYS := by
      rw [predefined_split]
      exact List.mem_append_left _ hk
    have hog := GoodParts_getPart hg p.1 hkp
    rw [hgp] at hog
    exact hog
  have hmk : ∀ p ∈ pairsOf R PRE_KEYS, ∀ K ∈ PREDEFINED_KEYS,
      ∀ q, occursAtB (K ++ str ":") p.2 q = false := by
    intro p hp K hK q
    have hgv := hgoodv p hp
    unfold goodV at hgv
    exact includesStr_false_forall (by simp [str]) (hgv.2.2.2 K hK) q
  have htmkq : ∀ q, occursAtB (str "TOPIC" ++ str ":") t q = false :=
    includesStr_false_forall (by decide) (htmk (str "TOPIC") (by decide))
  have hanchor := lastIndexOf_topic_anchor (pairsOf R PRE_KEYS).reverse
    (by decide) (by decide) (by decide) htmkq
  have hvals : ∀ p ∈ (pairsOf R PRE_KEYS).reverse,
      p.2 ≠ [] ∧ jsTrim p.2 = p.2 ∧ ('\n' ∉ p.2) ∧
      ∀ K ∈ PREDEFINED_KEYS.reverse, ∀ q, occursAtB (K ++ str ":") p.2 q = false := by
    intro p hp
    rw [List.mem_reverse] at hp
    have hgv := hgoodv p hp
    unfold goodV at hgv
    refine ⟨hgv.1, hgv.2.1, hgv.2.2.1, ?_⟩
    intro K hK q
    rw [List.mem_reverse] at hK
    exact hmk p hp K hK q
  have hsub : List.Sublist (((pairsOf R PRE_KEYS).reverse).map Prod.fst)
      PREDEFINED_KEYS.reverse := by
    rw [List.map_reverse]
    have h1 : List.Sublist ((pairsOf R PRE_KEYS).map Prod.fst).reverse PRE_KEYS.reverse :=
      (pairsOf_fst_sublist R PRE_KEYS).reverse
    have h2 : PREDEFINED_KEYS.reverse = str "TOPIC" :: PRE_KEYS.reverse := by decide
    rw [h2]
    exact h1.cons _
  have hfold := decons_fold PREDEFINED_KEYS.reverse (pairsOf R PRE_KEYS).reverse
    (setPart emptyParts (str "topic") t) (by decide) (by decide) (by decide) hsub hvals
  have hrepl : replaceFirst (str "TOPIC" ++ str ":") [] (str "TOPIC" ++ str ": " ++ t) =
      ' ' :: t := by
    have h0 : occursAtB (str "TOPIC" ++ str ":") (str "TOPIC" ++ str ": " ++ t) 0 = true := by
      rw [occursAtB_iff]
      exact ⟨' ' :: t, by simp [str]⟩
    unfold replaceFirst
    rw [jsIndexOf_zero h0]
    simp only []
    rw [List.take_zero, List.nil_append, List.nil_append]
    have hsh : str "TOPIC" ++ str ": " ++ t = (str "TOPIC" ++ str ":") ++ (' ' :: t) := by
      simp [str]
    rw [hsh]
    exact List.drop_left' (by simp)
  rw [htext]
  simp only [deconstruct]
  have he : ((PREDEFINED_KEYS.getLast?).getD []) = str "TOPIC" := by decide
  rw [he, hanchor]
  simp only []
  rw [List.drop_left, hrepl, jsTrim_space_cons, httrim, List.take_left]
  have hlow : (str "TOPIC").map lowerChar = str "topic" := by decide
  rw [hlow, hfold]
  obtain ⟨f1, f2, f3, f4, f5, f6, f7⟩ := R
  have ht7 : f7 = some t := ht
  subst ht7
  exact applyPairs_reassemble f1 f2 f3 f4 f5 f6 t hg.1 hg.2.1 hg.2.2.1 hg.2.2.2.1
    hg.2.2.2.2.1 hg.2.2.2.2.2.1

/-- Counterexample to C4 as stated: a record whose values contain no marker
pattern of any field but whose `topic` field is absent does not round-trip —
`deconstruct` anchors on the last `TOPIC:` occurrence, and without it the
decoder returns the empty record, losing the `tool` field. -/
theorem codec_roundtrip_cex :
    GoodParts ⟨none, some (str "Google."), none, none, none, none, none⟩ ∧
    deconstruct (construct ⟨none, some (str "Google."), none, none, none, none, none⟩) ≠
      ⟨none, some (str "Google."), none, none, none, none, none⟩ := by decide

/-- C4 (amended): the structured-record codec round-trips on every record
whose present values are nonempty, trimmed, single-line and contain no
`KEY:` marker text of any predefined field, and whose `topic` field is
present: `deconstruct (construct R) = R`. -/
theorem codec_roundtrip (R : Parts) (hg : GoodParts R) (ht : R.topic ≠ none) :
    deconstruct (construct R) = R := by
  obtain ⟨t, ht2⟩ := Option.ne_none_iff_exists'.mp ht
  exact deconstruct_construct hg ht2

/-- Witness for `codec_roundtrip` at a concrete three-field record. -/
theorem codec_roundtrip_witness :
    GoodParts ⟨some (str "Hello"), none, some (str "English"), none, none, none,
      some (str "greeting")⟩ ∧
    (⟨some (str "Hello"), none, some (str "English"), none, none, none,
      some (str "greeting")⟩ : Parts).topic ≠ none ∧
    deconstruct (construct ⟨some (str "Hello"), none, some (str "English"), none, none, none,
      some (str "greeting")⟩) =
      ⟨some (str "Hello"), none, some (str "English"), none, none, none,
        some (str "greeting")⟩ :=
  ⟨by decide, by decide, codec_roundtrip _ (by decide) (by decide)⟩

/-! ## Theorems: marker-by-marker citation rewriting (C2) -/

theorem tryMatch_plain {c : Char} (h : openerChar c = false) (s : JStr) :
    tryMatch (c :: s) = none := by
  unfold tryMatch
  simp [h]

theorem findMatchAux_skips : ∀ (cs : List Char), ∀ (X : JStr) (abs : Nat),
    (∀ c ∈ cs, openerChar c = false) →
    findMatchAux (cs ++ X) abs = findMatchAux X (abs + cs.length) := by
  intro cs
  induction cs with
  | nil => intro X abs _; simp
  | cons c tl ih =>
    intro X abs h
    rw [List.cons_append]
    have hstep : findMatchAux (c :: (tl ++ X)) abs = findMatchAux (tl ++ X) (abs + 1) := by
      conv_lhs => unfold findMatchAux
      rw [tryMatch_plain (h c (List.mem_cons_self c tl))]
    rw [hstep, ih X (abs + 1) (fun x hx => h x (List.mem_cons_of_mem c hx))]
    have harith : abs + 1 + tl.length = abs + (c :: tl).length := by
      simp only [List.length_cons]
      omega
    rw [harith]

theorem digit_isDigit {d : Nat} (h : d < 10) : (Char.ofNat (48 + d)).isDigit = true := by
  interval_cases d <;> decide

theorem closer_not_digit {cl : Char} (h : closerChar cl = true) : cl.isDigit = false := by
  have h2 : cl = ']' ∨ cl = ')' := by simpa [closerChar] using h
  rcases h2 with rfl | rfl <;> decide

theorem digit_numOk {d : Nat} (h : d < 10) : numOk [Char.ofNat (48 + d)] = true := by
  interval_cases d <;> decide

theorem digit_natOfDigits {d : Nat} (h : d < 10) : natOfDigits [Char.ofNat (48 + d)] = d := by
  interval_cases d <;> decide

theorem citeANSI_len {n : Nat} (h1 : 1 ≤ n) (h2 : n ≤ 9) : (citeANSI n).length = 12 := by
  interval_cases n <;> decide

theorem tryMatch_marker {o : Char} {w : JStr} {sep : Char} {d : Nat} {cl : Char} (tail : JStr)
    (ho : openerChar o = true) (hw : w.map lowerChar = str "citation")
    (hsep : sepChar sep = true) (hd : d < 10) (hcl : closerChar cl = true) :
    tryMatch (o :: (w ++ sep :: Char.ofNat (48 + d) :: cl :: tail)) =
      some (12, [Char.ofNat (48 + d)]) := by
  have hwlen : w.length = 8 := by
    have h8 := congrArg List.length hw
    simpa [str] using h8
  have htake : (w ++ sep :: Char.ofNat (48 + d) :: cl :: tail).take 8 = w :=
    List.take_left' hwlen
  have hdrop : (w ++ sep :: Char.ofNat (48 + d) :: cl :: tail).drop 8 =
      sep :: Char.ofNat (48 + d) :: cl :: tail :=
    List.drop_left' hwlen
  unfold tryMatch
  simp only []
  rw [if_pos ho, htake, if_pos hw, hdrop]
  simp only []
  rw [if_pos hsep]
  have hds : (Char.ofNat (48 + d) :: cl :: tail).takeWhile Char.isDigit =
      [Char.ofNat (48 + d)] := by
    rw [List.takeWhile_cons_of_pos (digit_isDigit hd),
      List.takeWhile_cons_of_neg (by rw [closer_not_digit hcl]; simp)]
  rw [hds]
  simp only [List.length_cons, List.length_nil, List.drop_succ_cons, List.drop_zero]
  rw [if_pos ⟨by simp, hcl⟩]

theorem findMatchAux_marker {o : Char} {w : JStr} {sep : Char} {d : Nat} {cl : Char}
    (tail : JStr) (abs : Nat)
    (ho : openerChar o = true) (hw : w.map lowerChar = str "citation")
    (hsep : sepChar sep = true) (hd : d < 10) (hcl : closerChar cl = true) :
    findMatchAux (o :: (w ++ sep :: Char.ofNat (48 + d) :: cl :: tail)) abs =
      some (abs, 12, [Char.ofNat (48 + d)]) := by
  unfold findMatchAux
  rw [tryMatch_marker tail ho hw hsep hd hcl]

theorem renderDoc_cons (it : CItem) (items : List CItem) :
    renderDoc (it :: items) = renderItem it ++ renderDoc items := by
  simp [renderDoc]

theorem renderDoc_append (a b : List CItem) :
    renderDoc (a ++ b) = renderDoc a ++ renderDoc b := by
  simp [renderDoc]

theorem renderDoc_plains : ∀ cs : List Char, renderDoc (cs.map CItem.plain) = cs := by
  intro cs
  induction cs with
  | nil => rfl
  | cons c tl ih => simp [renderDoc, renderItem] at ih ⊢; exact ih

theorem doc_split : ∀ items : List CItem,
    (∃ cs : List Char, items = cs.map CItem.plain) ∨
    (∃ (cs : List Char) (o : Char) (w : JStr) (sep : Char) (d : Nat) (cl : Char)
      (rest : List CItem),
      items = cs.map CItem.plain ++ CItem.marker o w sep d cl :: rest) := by
  intro items
  induction items with
  | nil => exact Or.inl ⟨[], rfl⟩
  | cons it rest ih =>
    cases it with
    | plain c =>
      rcases ih with ⟨cs, rfl⟩ | ⟨cs, o, w, sep, d, cl, rest2, rfl⟩
      · exact Or.inl ⟨c :: cs, rfl⟩
      · exact Or.inr ⟨c :: cs, o, w, sep, d, cl, rest2, rfl⟩
    | marker o w sep d cl =>
      exact Or.inr ⟨[], o, w, sep, d, cl, rest, rfl⟩

theorem markerCount_split (cs : List Char) (o : Char) (w : JStr) (sep : Char) (d : Nat)
    (cl : Char) (rest : List CItem) :
    markerCount (cs.map CItem.plain ++ CItem.marker o w sep d cl :: rest) =
      markerCount rest + 1 := by
  induction cs with
  | nil => simp [markerCount, List.countP_cons]
  | cons c tl ih => simpa [markerCount, List.countP_cons] using ih

theorem markerCount_le_render : ∀ items : List CItem,
    markerCount items ≤ (renderDoc items).length := by
  intro items
  induction items with
  | nil => simp [markerCount, renderDoc]
  | cons it rest ih =>
    rw [renderDoc_cons]
    cases it with
    | plain c =>
      have h1 : markerCount (CItem.plain c :: rest) = markerCount rest := by
        simp [markerCount, List.countP_cons]
      rw [h1]
      simp only [List.length_append]
      omega
    | marker o w sep d cl =>
      have h1 : markerCount (CItem.marker o w sep d cl :: rest) = markerCount rest + 1 := by
        simp [markerCount, List.countP_cons]
      rw [h1]
      have h2 : (renderItem (CItem.marker o w sep d cl)).length ≥ 1 := by
        simp [renderItem]
      simp only [List.length_append]
      omega

theorem specOut_plains (cite : Nat → JStr) :
    ∀ (cs : List Char) (X : List CItem) (refs : List Nat),
    specOut cite (cs.map CItem.plain ++ X) refs = cs ++ specOut cite X refs := by
  intro cs
  induction cs with
  | nil => intro X refs; rfl
  | cons c tl ih =>
    intro X refs
    rw [List.map_cons, List.cons_append]
    show c :: specOut cite (tl.map CItem.plain ++ X) refs = c :: tl ++ specOut cite X refs
    rw [ih X refs]
    rfl

theorem specRefs_plains : ∀ (cs : List Char) (X : List CItem) (refs : List Nat),
    specRefs (cs.map CItem.plain ++ X) refs = specRefs X refs := by
  intro cs
  induction cs with
  | nil => intro X refs; rfl
  | cons c tl ih =>
    intro X refs
    rw [List.map_cons, List.cons_append]
    show specRefs (tl.map CItem.plain ++ X) refs = specRefs X refs
    exact ih X refs

theorem specRefs_pre : ∀ (items : List CItem) (refs : List Nat),
    refs <+: specRefs items refs := by
  intro items
  induction items with
  | nil => intro refs; exact List.prefix_rfl
  | cons it rest ih =>
    intro refs
    cases it with
    | plain c => exact ih refs
    | marker o w sep d cl =>
      show refs <+: specRefs rest (if refs.contains d then refs else refs ++ [d])
      refine List.IsPrefix.trans ?_ (ih _)
      by_cases hc : refs.contains d
      · rw [if_pos hc]
      · rw [if_neg hc]
        exact List.prefix_append _ _

theorem specRewrite_eq (cite : Nat → JStr) : ∀ (items : List CItem) (s : JStr)
    (refs : List Nat),
    List.foldl (specStep cite) (s, refs) items =
      (s ++ specOut cite items refs, specRefs items refs) := by
  intro items
  induction items with
  | nil => intro s refs; simp [specOut, specRefs]
  | cons it rest ih =>
    intro s refs
    rw [List.foldl_cons]
    cases it with
    | plain c =>
      show List.foldl (specStep cite) (s ++ [c], refs) rest = _
      rw [ih (s ++ [c]) refs]
      show (s ++ [c] ++ specOut cite rest refs, specRefs rest refs) =
        (s ++ (c :: specOut cite rest refs), specRefs rest refs)
      simp
    | marker o w sep d cl =>
      show List.foldl (specStep cite)
        (s ++ cite (1 + (if refs.contains d then refs else refs ++ [d]).indexOf d),
         if refs.contains d then refs else refs ++ [d]) rest = _
      rw [ih _ _]
      show (s ++ cite (1 + (if refs.contains d then refs else refs ++ [d]).indexOf d) ++
          specOut cite rest (if refs.contains d then refs else refs ++ [d]),
        specRefs rest (if refs.contains d then refs else refs ++ [d])) = _
      show _ = (s ++ (cite (1 + (if refs.contains d then refs else refs ++ [d]).indexOf d) ++
          specOut cite rest (if refs.contains d then refs else refs ++ [d])),
        specRefs rest (if refs.contains d then refs else refs ++ [d]))
      simp

/-- The `while` loop of `push` performs exactly the marker-by-marker rewrite
of the specification on a rendered document, provided the citation formatter
output has the length of a single-digit marker (at most `9` distinct
citation numbers). -/
theorem pushLoop_render : ∀ (fuel : Nat) (items : List CItem) (A : JStr) (refs : List Nat),
    (∀ it ∈ items, itemWf it) →
    markerCount items < fuel →
    (specRefs items refs).length ≤ 9 →
    pushLoop citeANSI fuel (A ++ renderDoc items) refs A.length =
      (A ++ specOut citeANSI items refs, specRefs items refs) := by
  intro fuel
  induction fuel with
  | zero =>
    intro items A refs _ hf _
    exact absurd hf (Nat.not_lt_zero _)
  | succ n ih =>
    intro items A refs hwf hf h9
    rcases doc_split items with ⟨cs, rfl⟩ | ⟨cs, o, w, sep, d, cl, rest, rfl⟩
    · have hcs : ∀ c ∈ cs, openerChar c = false := by
        intro c hc
        exact hwf (CItem.plain c) (List.mem_map_of_mem _ hc)
      have hfm : findMatch (A ++ renderDoc (cs.map CItem.plain)) A.length = none := by
        unfold findMatch
        rw [List.drop_left, renderDoc_plains]
        have hsk := findMatchAux_skips cs [] A.length hcs
        rw [List.append_nil] at hsk
        rw [hsk]
        rfl
      have hso : specOut citeANSI (cs.map CItem.plain) refs = cs := by
        have h2 := specOut_plains citeANSI cs [] refs
        simpa [specOut] using h2
      have hsr : specRefs (cs.map CItem.plain) refs = refs := by
        have h2 := specRefs_plains cs [] refs
        simpa [specRefs] using h2
      conv_lhs => unfold pushLoop
      rw [hfm]
      show (A ++ renderDoc (cs.map CItem.plain), refs) = _
      rw [renderDoc_plains, hso, hsr]
    · have hcs : ∀ c ∈ cs, openerChar c = false := by
        intro c hc
        exact hwf (CItem.plain c) (List.mem_append_left _ (List.mem_map_of_mem _ hc))
      have hmk2 : openerChar o = true ∧ w.map lowerChar = str "citation" ∧
          sepChar sep = true ∧ d < 10 ∧ closerChar cl = true :=
        hwf _ (List.mem_append_right _ (List.mem_cons_self _ _))
      obtain ⟨ho, hw, hsep, hd, hcl⟩ := hmk2
      have hwlen : w.length = 8 := by
        have h8 := congrArg List.length hw
        simpa [str] using h8
      have hrender : renderDoc (cs.map CItem.plain ++ CItem.marker o w sep d cl :: rest) =
          cs ++ (o :: (w ++ sep :: Char.ofNat (48 + d) :: cl :: renderDoc rest)) := by
        rw [renderDoc_append, renderDoc_plains, renderDoc_cons]
        simp [renderItem]
      have hfm : findMatch
          (A ++ (cs ++ (o :: (w ++ sep :: Char.ofNat (48 + d) :: cl :: renderDoc rest))))
          A.length = some (A.length + cs.length, 12, [Char.ofNat (48 + d)]) := by
        unfold findMatch
        rw [List.drop_left, findMatchAux_skips cs _ A.length hcs,
          findMatchAux_marker (renderDoc rest) (A.length + cs.length) ho hw hsep hd hcl]
      have htk : (A ++ (cs ++ (o :: (w ++ sep :: Char.ofNat (48 + d) :: cl ::
          renderDoc rest)))).take (A.length + cs.length) = A ++ cs := by
        rw [← List.append_assoc]
        exact List.take_left' (by simp)
      have hdp : (A ++ (cs ++ (o :: (w ++ sep :: Char.ofNat (48 + d) :: cl ::
          renderDoc rest)))).drop (A.length + cs.length + 12) = renderDoc rest := by
        have hsh : A ++ (cs ++ (o :: (w ++ sep :: Char.ofNat (48 + d) :: cl ::
            renderDoc rest))) =
            (A ++ cs ++ (o :: (w ++ sep :: Char.ofNat (48 + d) :: [cl]))) ++
              renderDoc rest := by
          simp
        rw [hsh]
        refine List.drop_left' ?_
        simp only [List.length_append, List.length_cons, hwlen, List.length_nil]
      have hmem : d ∈ (if refs.contains d then refs else refs ++ [d]) := by
        by_cases hc : refs.contains d
        · rw [if_pos hc]
          exact List.mem_of_elem_eq_true hc
        · rw [if_neg hc]
          exact List.mem_append_right _ (List.mem_singleton.mpr rfl)
      have h9x : (specRefs rest (if refs.contains d then refs else refs ++ [d])).length ≤ 9 := by
        have he : specRefs (cs.map CItem.plain ++ CItem.marker o w sep d cl :: rest) refs =
            specRefs rest (if refs.contains d then refs else refs ++ [d]) := by
          rw [specRefs_plains]
          rfl
        rw [he] at h9
        exact h9
      have hord : 1 + (if refs.contains d then refs else refs ++ [d]).indexOf d ≤ 9 := by
        have hlt : (if refs.contains d then refs else refs ++ [d]).indexOf d <
            (if refs.contains d then refs else refs ++ [d]).length :=
          List.indexOf_lt_length.mpr hmem
        have hlen := (specRefs_pre rest (if refs.contains d then refs else refs ++ [d])).length_le
        omega
      have hclen : (citeANSI (1 + (if refs.contains d then refs else
          refs ++ [d]).indexOf d)).length = 12 :=
        citeANSI_len (by omega) hord
      have hAlen : ((A ++ cs) ++ citeANSI (1 + (if refs.contains d then refs else
          refs ++ [d]).indexOf d)).length = A.length + cs.length + 12 := by
        simp only [List.length_append, hclen]
      have hwfrest : ∀ it ∈ rest, itemWf it := by
        intro it hit
        exact hwf it (List.mem_append_right _ (List.mem_cons_of_mem _ hit))
      have hcount : markerCount rest < n := by
        rw [markerCount_split] at hf
        omega
      rw [hrender]
      conv_lhs => unfold pushLoop
      rw [hfm]
      simp only []
      rw [if_pos (digit_numOk hd), digit_natOfDigits hd, htk, hdp, ← hAlen]
      rw [ih rest ((A ++ cs) ++ citeANSI (1 + (if refs.contains d then refs else
        refs ++ [d]).indexOf d)) (if refs.contains d then refs else refs ++ [d])
        hwfrest hcount h9x]
      rw [specOut_plains, specRefs_plains]
      show ((A ++ cs) ++ citeANSI (1 + (if refs.contains d then refs else
          refs ++ [d]).indexOf d) ++
          specOut citeANSI rest (if refs.contains d then refs else refs ++ [d]),
        specRefs rest (if refs.contains d then refs else refs ++ [d])) =
        (A ++ (cs ++ (citeANSI (1 + (if refs.contains d then refs else
          refs ++ [d]).indexOf d) ++
          specOut citeANSI rest (if refs.contains d then refs else refs ++ [d]))),
        specRefs rest (if refs.contains d then refs else refs ++ [d]))
      simp

/-- C2 (amended): on text made of plain characters (outside the opener
class) and single-digit citation markers of either bracket style in any
letter case, with at most `9` distinct citation numbers, `push` performs
exactly the marker-by-marker rewrite of the spec: each marker number
receives a stable first-seen ordinal, the whole matched span is replaced by
`cite ordinal`, scanning continues after the replacement, and repeated
numbers reuse their ordinal.  The rewritten stream is
`out ++ buffer` of the resulting display state. -/
theorem citation_marker_rewrite (items : List CItem)
    (hwf : ∀ it ∈ items, itemWf it)
    (h9 : (specRewrite citeANSI items).2.length ≤ 9) :
    (push citeANSI initDisplay (renderDoc items)).refs = (specRewrite citeANSI items).2 ∧
    (push citeANSI initDisplay (renderDoc items)).out ++
      (push citeANSI initDisplay (renderDoc items)).buffer =
        (specRewrite citeANSI items).1 := by
  have hsr : specRewrite citeANSI items =
      (specOut citeANSI items [], specRefs items []) := by
    unfold specRewrite
    rw [specRewrite_eq citeANSI items [] []]
    simp
  rw [hsr] at h9
  have h9b : (specRefs items []).length ≤ 9 := h9
  have hcnt : markerCount items < (renderDoc items).length + 1 := by
    have hle := markerCount_le_render items
    omega
  have hloop := pushLoop_render ((renderDoc items).length + 1) items [] [] hwf hcnt h9b
  simp only [List.nil_append, List.length_nil] at hloop
  have hbr : pushLoop citeANSI ((initDisplay.buffer ++ renderDoc items).length + 1)
      (initDisplay.buffer ++ renderDoc items) initDisplay.refs 0 =
      (specOut citeANSI items [], specRefs items []) := by
    show pushLoop citeANSI ((([] : JStr) ++ renderDoc items).length + 1)
      (([] : JStr) ++ renderDoc items) ([] : List Nat) 0 = _
    simp only [List.nil_append]
    rw [hloop]
  rw [hsr]
  unfold push
  simp only []
  rw [hbr]
  simp only []
  by_cases hL : (specOut citeANSI items []).length > MAX_LOOKAHEAD
  · rw [if_pos hL]
    exact ⟨rfl, by simp [initDisplay, List.take_append_drop]⟩
  · rw [if_neg hL]
    exact ⟨rfl, by simp [initDisplay]⟩

/-- Witness for `citation_marker_rewrite` on a concrete mixed-style document:
the hypotheses hold and the rewrite matches the spec fold. -/
theorem citation_marker_rewrite_witness :
    (∀ it ∈ exampleDoc, itemWf it) ∧
    (specRewrite citeANSI exampleDoc).2.length ≤ 9 ∧
    ((push citeANSI initDisplay (renderDoc exampleDoc)).refs =
        (specRewrite citeANSI exampleDoc).2 ∧
      (push citeANSI initDisplay (renderDoc exampleDoc)).out ++
        (push citeANSI initDisplay (renderDoc exampleDoc)).buffer =
          (specRewrite citeANSI exampleDoc).1) :=
  ⟨by decide, by decide, citation_marker_rewrite exampleDoc (by decide) (by decide)⟩
